import Mathlib

/-!
Verification development for the `pp_ser.py` serialization-directive
preprocessor (file `src/python/pp_ser.py`).  The program is embedded
shallowly: every method of the `pp_ser` class is translated into an
executable Lean definition over `List Char` strings, with Python regular
expressions replaced by equivalent explicit string scanners (the ASCII
fragment of Python's case handling is modelled; all inputs of interest are
ASCII).  Fatal `sys.exit` error paths become `Except` errors carrying the
same report data (file, line number, directive, message, offending line);
an uncaught Python exception (`KeyError`, `IndexError`) is modelled by a
distinct error constructor carrying only what the exception itself holds.
The iteration order of the Python `set` used for the call registry is not
deterministic across interpreter runs; the engine is therefore
parameterised by an enumeration function `EnumFn`, valid when it permutes
the collected list.
-/

set_option maxRecDepth 100000

namespace PPSer

abbrev Str := List Char

/-- ASCII fragment of Python `str.lower` on a single character. -/
def lowerChar : Char → Char
  | 'A' => 'a' | 'B' => 'b' | 'C' => 'c' | 'D' => 'd' | 'E' => 'e' | 'F' => 'f'
  | 'G' => 'g' | 'H' => 'h' | 'I' => 'i' | 'J' => 'j' | 'K' => 'k' | 'L' => 'l'
  | 'M' => 'm' | 'N' => 'n' | 'O' => 'o' | 'P' => 'p' | 'Q' => 'q' | 'R' => 'r'
  | 'S' => 's' | 'T' => 't' | 'U' => 'u' | 'V' => 'v' | 'W' => 'w' | 'X' => 'x'
  | 'Y' => 'y' | 'Z' => 'z' | c => c

/-- ASCII fragment of Python `str.upper` on a single character. -/
def upperChar : Char → Char
  | 'a' => 'A' | 'b' => 'B' | 'c' => 'C' | 'd' => 'D' | 'e' => 'E' | 'f' => 'F'
  | 'g' => 'G' | 'h' => 'H' | 'i' => 'I' | 'j' => 'J' | 'k' => 'K' | 'l' => 'L'
  | 'm' => 'M' | 'n' => 'N' | 'o' => 'O' | 'p' => 'P' | 'q' => 'Q' | 'r' => 'R'
  | 's' => 'S' | 't' => 'T' | 'u' => 'U' | 'v' => 'V' | 'w' => 'W' | 'x' => 'X'
  | 'y' => 'Y' | 'z' => 'Z' | c => c

def lowerStr (s : Str) : Str := s.map lowerChar

def upperStr (s : Str) : Str := s.map upperChar

/-- Python `\s` for ASCII. -/
def isWS (c : Char) : Bool :=
  c == ' ' || c == '\t' || c == '\n' || c == '\r' || c == '\x0B' || c == '\x0C'

/-- Case-insensitive literal-prefix match; returns the remainder. -/
def stripCI : Str → Str → Option Str
  | [], s => some s
  | _ :: _, [] => none
  | p :: ps, c :: cs => if lowerChar c = lowerChar p then stripCI ps cs else none

/-- Case-sensitive literal-prefix match; returns the remainder. -/
def stripPre : Str → Str → Option Str
  | [], s => some s
  | _ :: _, [] => none
  | p :: ps, c :: cs => if c = p then stripPre ps cs else none

/-- Drop one trailing newline if present (how `$`/`.` behave near it). -/
def chompNl (s : Str) : Str := if s.getLast? = some '\n' then s.dropLast else s

/-- Remove trailing spaces only (regex `[ ]*$`). -/
def rstripSp (s : Str) : Str := (s.reverse.dropWhile (fun c => c == ' ')).reverse

/-- Python `str.rstrip()`. -/
def pyRstrip (s : Str) : Str := (s.reverse.dropWhile isWS).reverse

/-- Python `str.strip()`. -/
def pyStrip (s : Str) : Str := pyRstrip (s.dropWhile isWS)

/-- Python `sep.join`. -/
def joinSep (sep : Str) : List Str → Str
  | [] => []
  | [x] => x
  | x :: y :: xs => x ++ sep ++ joinSep sep (y :: xs)

/-- Python `str.split(sep)` for a one-character separator. -/
def splitChGo (sep : Char) : Str → Str → List Str
  | [], cur => [cur.reverse]
  | c :: rest, cur =>
    if c = sep then cur.reverse :: splitChGo sep rest []
    else splitChGo sep rest (c :: cur)

def splitCh (sep : Char) (s : Str) : List Str := splitChGo sep s []

/-- Python `arg.split('=')`. -/
def splitEq (s : Str) : List Str := splitCh '=' s

/-- Python `line.split('::')` (leftmost, non-overlapping). -/
def splitCCGo : Str → Str → List Str
  | [], cur => [cur.reverse]
  | ':' :: ':' :: rest, cur => cur.reverse :: splitCCGo rest []
  | c :: rest, cur => splitCCGo rest (c :: cur)

def splitCC (s : Str) : List Str := splitCCGo s []

/-- The lookahead `(?![^(]*\))` after a comma: true when a `)` occurs
before any `(` in the remainder. -/
def commaAhead (u : Str) : Bool := (u.takeWhile (fun c => !(c == '('))).contains ')'

/-- `re.split(r',(?![^(]*\))', s)`: split at top-level commas only. -/
def splitTopCGo : Str → Str → List Str
  | [], cur => [cur.reverse]
  | ',' :: rest, cur =>
    if commaAhead rest then splitTopCGo rest (',' :: cur)
    else cur.reverse :: splitTopCGo rest []
  | c :: rest, cur => splitTopCGo rest (c :: cur)

def splitTopC (s : Str) : List Str := splitTopCGo s []

/-- Remainder after the next `)`, failing at a newline (`.` excludes it). -/
def parenClose : Str → Option Str
  | [] => none
  | ')' :: rest => some rest
  | '\n' :: _ => none
  | _ :: rest => parenClose rest

/-- `re.sub(r'\(.*?\)', '', s)`: drop every shortest `(...)` group. -/
def remParensGo : Nat → Str → Str
  | _, [] => []
  | 0, s => s
  | fuel + 1, '(' :: rest =>
    (match parenClose rest with
     | some r => remParensGo fuel r
     | none => '(' :: remParensGo fuel rest)
  | fuel + 1, c :: rest => c :: remParensGo fuel rest

def remParens (s : Str) : Str := remParensGo s.length s

/-- `re.sub(r'\(.+\)', '', s)` (greedy): from a `(` to the last `)` in the
same line with at least one character in between. -/
def dataStripGo : Nat → Str → Str
  | _, [] => []
  | 0, s => s
  | fuel + 1, '(' :: rest =>
    let seg := rest.takeWhile (fun c => !(c == '\n'))
    let closerRev := seg.reverse.dropWhile (fun c => !(c == ')'))
    if 2 ≤ closerRev.length then
      dataStripGo fuel ((seg.reverse.takeWhile (fun c => !(c == ')'))).reverse ++ rest.drop seg.length)
    else '(' :: dataStripGo fuel rest
  | fuel + 1, c :: rest => c :: dataStripGo fuel rest

def dataStrip (s : Str) : Str := dataStripGo s.length s

/-- Python `str.split()` with no argument: split on whitespace runs. -/
def pySplitWSGo : Str → Str → List Str
  | [], cur => if cur = [] then [] else [cur.reverse]
  | c :: rest, cur =>
    if isWS c then (if cur = [] then pySplitWSGo rest [] else cur.reverse :: pySplitWSGo rest [])
    else pySplitWSGo rest (c :: cur)

def pySplitWS (s : Str) : List Str := pySplitWSGo s []

/-- Chars up to and including the closing quote `q`, with the remainder. -/
def quoteClose (q : Char) : Str → Option (Str × Str)
  | [] => none
  | c :: cs =>
    if c = q then some ([q], cs)
    else
      match quoteClose q cs with
      | some (a, r) => some (c :: a, r)
      | none => none

/-- The argument tokenizer: `r2.split(text)[1::2]` with
`r2 = ((?:[^ "']|"[^"]*"|'[^']*')+)`.  Tokens are maximal runs of
non-space, non-quote characters and complete quoted groups (quotes kept);
spaces and unmatched quote characters separate tokens. -/
def tokGo : Nat → Str → Str → List Str → List Str
  | _, [], cur, acc => ((if cur = [] then acc else cur.reverse :: acc)).reverse
  | 0, _ :: _, cur, acc => ((if cur = [] then acc else cur.reverse :: acc)).reverse
  | fuel + 1, c :: cs, cur, acc =>
    if c = ' ' then tokGo fuel cs [] (if cur = [] then acc else cur.reverse :: acc)
    else if c = '"' ∨ c = '\'' then
      match quoteClose c cs with
      | some (body, rest) => tokGo fuel rest ((c :: body).reverse ++ cur) acc
      | none => tokGo fuel cs [] (if cur = [] then acc else cur.reverse :: acc)
    else tokGo fuel cs (c :: cur) acc

def tokenize (s : Str) : List Str := tokGo s.length s [] []

/-- `set.add`: insert if not present (insertion order retained; the actual
iteration order of the Python set is abstracted by `EnumFn`). -/
def addUniq (l : List Str) (x : Str) : List Str := if x ∈ l then l else l ++ [x]

/-! ## Line matchers (the regexes of `pp_ser`) -/

def serMark : Str := ['!', '$', 's', 'e', 'r']

/-- `r1 = '^ *!\$ser *(.*)$'` (IGNORECASE): on success, group 1. -/
def serRest (s : Str) : Option Str :=
  match stripCI serMark ((chompNl s).dropWhile (fun c => c == ' ')) with
  | none => none
  | some r =>
    if '\n' ∈ r.dropWhile (fun c => c == ' ') then none
    else some (r.dropWhile (fun c => c == ' '))

def identStart (c : Char) : Bool :=
  decide ('a' ≤ lowerChar c) && decide (lowerChar c ≤ 'z')

def identCh (c : Char) : Bool :=
  identStart c || (decide ('0' ≤ c) && decide (c ≤ '9')) || c == '_'

def kwModule : Str := "module".toList
def kwProgram : Str := "program".toList
def kwEnd : Str := "end".toList
def kwImplicit : Str := "implicit".toList
def kwNone : Str := "none".toList
def kwIntent : Str := "intent".toList
def kwInParen : Str := "(in)".toList

/-- `(module|program)` (IGNORECASE) as a prefix; keyword text kept as
matched (it is echoed in error messages). -/
def unitKw (t : Str) : Option (Str × Str) :=
  match stripCI kwModule t with
  | some r => some (t.take 6, r)
  | none =>
    match stripCI kwProgram t with
    | some r => some (t.take 7, r)
    | none => none

/-- `'^ *(module|program) +([a-z][a-z0-9_]*)'` (IGNORECASE):
returns (matched keyword, unit name). -/
def matchUnit (s : Str) : Option (Str × Str) :=
  match unitKw (s.dropWhile (fun c => c == ' ')) with
  | none => none
  | some (kw, r) =>
    match r with
    | ' ' :: _ =>
      (match r.dropWhile (fun c => c == ' ') with
       | c :: cs => if identStart c then some (kw, c :: cs.takeWhile identCh) else none
       | [] => none)
    | _ => none

/-- `'^ *end *(module|program) ([a-z][a-z0-9_]*)'` (IGNORECASE). -/
def matchEndUnit (s : Str) : Option (Str × Str) :=
  match stripCI kwEnd (s.dropWhile (fun c => c == ' ')) with
  | none => none
  | some r =>
    match unitKw (r.dropWhile (fun c => c == ' ')) with
    | none => none
    | some (kw, r2) =>
      match r2 with
      | ' ' :: c :: cs => if identStart c then some (kw, c :: cs.takeWhile identCh) else none
      | _ => none

/-- `'^ *implicit +none'` (IGNORECASE). -/
def matchImplicit (s : Str) : Bool :=
  match stripCI kwImplicit (s.dropWhile (fun c => c == ' ')) with
  | some (' ' :: r) => (stripCI kwNone (r.dropWhile (fun c => c == ' '))).isSome
  | _ => false

/-- After `(in)`: the `[^:]*::\s+` part of the declaration regex. -/
def intentTail (r : Str) : Bool :=
  match r.dropWhile (fun c => !(c == ':')) with
  | ':' :: ':' :: w :: _ => isWS w
  | _ => false

/-- `re.search(r'.*intent *\(in\)[^:]*::\s+(.*)', s, IGNORECASE)` as a
truth value: some occurrence of `intent`-spaces-`(in)` whose remainder
reaches `::` (no earlier single colon) followed by whitespace. -/
def hasIntentDecl : Str → Bool
  | [] => false
  | c :: cs =>
    (match stripCI kwIntent (c :: cs) with
     | some r =>
       (match stripCI kwInParen (r.dropWhile (fun x => x == ' ')) with
        | some r2 => intentTail r2
        | none => false)
     | none => false) || hasIntentDecl cs

/-- `re.sub(r', *intent *\(in\)', '', s, flags=IGNORECASE)`. -/
def remIntentGo : Nat → Str → Str
  | _, [] => []
  | 0, s => s
  | fuel + 1, ',' :: rest =>
    (match stripCI kwIntent (rest.dropWhile (fun c => c == ' ')) with
     | some r =>
       (match stripCI kwInParen (r.dropWhile (fun c => c == ' ')) with
        | some r2 => remIntentGo fuel r2
        | none => ',' :: remIntentGo fuel rest)
     | none => ',' :: remIntentGo fuel rest)
  | fuel + 1, c :: rest => c :: remIntentGo fuel rest

def remIntent (s : Str) : Str := remIntentGo s.length s

def contMark : Str := serMark ++ ['&']

/-- `re.match('^ *!\$ser& ', line, IGNORECASE)`. -/
def contLineIn (l : Str) : Bool :=
  match stripCI contMark (l.dropWhile (fun c => c == ' ')) with
  | some (' ' :: _) => true
  | _ => false

/-- `re.sub('^ *!\$ser& *', ' ', line, re.IGNORECASE)`: the fourth
positional argument of `re.sub` is `count`, not `flags`, so this
substitution is CASE-SENSITIVE (unlike the `re.match` right above it,
whose third positional argument is `flags`): only a lowercase
`!$ser&` prefix is stripped; an uppercase one is recognized by
`contLineIn` yet left in place. -/
def contLineSub (l : Str) : Str :=
  match stripPre contMark (l.dropWhile (fun c => c == ' ')) with
  | some r => ' ' :: r.dropWhile (fun c => c == ' ')
  | none => l

/-- `re.match('^ *!\$ser *(.*) & *$', line, IGNORECASE)`: a directive line
announcing a continuation. -/
def contLineOut (s : Str) : Bool :=
  if '\n' ∈ chompNl s then false
  else
    match stripCI serMark ((chompNl s).dropWhile (fun c => c == ' ')) with
    | some _ =>
      (match (rstripSp (chompNl s)).reverse with
       | '&' :: ' ' :: _ => true
       | _ => false)
    | none => false

/-- `re.sub(' +& *$', '', b)` on the part before any trailing newline. -/
def chopBody (b : Str) : Str :=
  match (rstripSp b).reverse with
  | '&' :: ' ' :: restRev => rstripSp (' ' :: restRev).reverse
  | _ => b

/-- The chop applied to a continued line: trailing `&` removed, then
`rstrip()`. -/
def chopCont (s : Str) : Str :=
  pyRstrip (if s.getLast? = some '\n' then chopBody s.dropLast ++ ['\n'] else chopBody s)

/-! ## State, configuration, errors -/

/-- A fatal outcome.  `exitError` is `pp_ser.__exit_error` (reports file,
line number, directive, message and the offending line before
`sys.exit(1)`); `keyError`/`indexError` are uncaught Python exceptions,
which carry no such report. -/
inductive PErr where
  | exitError (infile : Str) (linenum : Nat) (directive : Str) (msg : Str) (line : Str)
  | keyError (key : Str)
  | indexError
  deriving DecidableEq

/-- The configuration consumed by the core (`__init__` keyword args). -/
structure Cfg where
  infile : Str
  ifdef : Str
  realName : Str
  modName : Str
  deriving DecidableEq

/-- The mutable per-file fields of the `pp_ser` object used by the core. -/
structure PState where
  ser : Bool
  line : Str
  linenum : Nat
  curModule : Str
  calls : List Str
  outBuf : Str
  implicitnoneFound : Bool
  implicitnoneDone : Bool
  intentinToRemove : List Str
  intentinRemoved : List Str
  deriving DecidableEq

/-- The state set up by `pp_ser.__init__`. -/
def initState : PState :=
  { ser := false, line := [], linenum := 0, curModule := [], calls := [],
    outBuf := [], implicitnoneFound := false, implicitnoneDone := false,
    intentinToRemove := [], intentinRemoved := [] }

def exitErr (cfg : Cfg) (st : PState) (directive msg : Str) : PErr :=
  PErr.exitError cfg.infile st.linenum directive msg st.line

def addCall (st : PState) (c : Str) : PState := { st with calls := addUniq st.calls c }

/-- Iteration order of the call-registry `set` (arbitrary at runtime). -/
abbrev EnumFn := List Str → List Str

/-- A valid enumeration yields the same elements. -/
def EnumOK (e : EnumFn) : Prop := ∀ l, (e l).Perm l

/-! ## Tables (`self.methods`, `self.language`, `self.modes`) -/

def mMode : Str := "ppser_set_mode".toList
def mGetmode : Str := "ppser_get_mode".toList
def mInit : Str := "ppser_initialize".toList
def mCleanup : Str := "ppser_finalize".toList
def mDatawrite : Str := "fs_write_field".toList
def mDataread : Str := "fs_read_field".toList
def mOption : Str := "fs_Option".toList
def mSerinfo : Str := "fs_add_serializer_metainfo".toList
def mRegister : Str := "fs_register_field".toList
def mRegistertracers : Str := "fs_RegisterAllTracers".toList
def mSavepoint : Str := "fs_create_savepoint".toList
def mSpinfo : Str := "fs_add_savepoint_metainfo".toList
def mOn : Str := "fs_enable_serialization".toList
def mOff : Str := "fs_disable_serialization".toList

def langCleanup : List Str := ["CLEANUP".toList, "CLE".toList]
def langData : List Str := ["DATA".toList, "DAT".toList]
def langMode : List Str := ["MODE".toList, "MOD".toList]
def langInit : List Str := ["INIT".toList, "INI".toList]
def langOption : List Str := ["OPTION".toList, "OPT".toList]
def langMetainfo : List Str := ["METAINFO".toList]
def langVerbatim : List Str := ["VERBATIM".toList, "VER".toList]
def langRegister : List Str := ["REGISTER".toList, "REG".toList]
def langRegistertracers : List Str := ["REGISTERTRACERS".toList]
def langZero : List Str := ["ZERO".toList, "ZER".toList]
def langSavepoint : List Str := ["SAVEPOINT".toList, "SAV".toList]
def langTracer : List Str := ["TRACER".toList, "TRA".toList]
def langOn : List Str := ["ON".toList]
def langOff : List Str := ["OFF".toList]

/-- `__reg_shortcuts`: mnemonic dimension/halo shortcuts. -/
def regShortcuts (s : Str) : List Str :=
  let u := upperStr s
  if (match u with
      | [] => true
      | c :: _ => c == 'I' || c == 'J' || c == 'K') then
    if u = [] then pySplitWS ( "1 1 1 1 0 0 0 0 0 0 0 0".toList)
    else if u = "I".toList then pySplitWS ( "ie 1 1 1 nboundlines nboundlines 0 0 0 0 0 0".toList)
    else if u = "J".toList then pySplitWS ( "1 je 1 1 0 0 nboundlines nboundlines 0 0 0 0".toList)
    else if u = "J2".toList then pySplitWS ( "1 je 2 1 0 0 nboundlines nboundlines 0 0 0 0".toList)
    else if u = "K".toList then pySplitWS ( "1 1 ke 1 0 0 0 0 0 0 0 0".toList)
    else if u = "K1".toList then pySplitWS ( "1 1 ke1 1 0 0 0 0 0 1 0 0".toList)
    else if u = "IJ".toList then pySplitWS ( "ie je 1 1 nboundlines nboundlines nboundlines nboundlines 0 0 0 0".toList)
    else if u = "IJ3".toList then pySplitWS ( "ie je 3 1 nboundlines nboundlines nboundlines nboundlines 0 0 0 0".toList)
    else if u = "IK".toList then pySplitWS ( "ie 1 ke 1 nboundlines nboundlines 0 0 0 0 0 0".toList)
    else if u = "IK1".toList then pySplitWS ( "ie 1 ke1 1 nboundlines nboundlines 0 0 0 1 0 0".toList)
    else if u = "JK".toList then pySplitWS ( "1 je ke 1 0 0 nboundlines nboundlines 0 0 0 0".toList)
    else if u = "JK1".toList then pySplitWS ( "1 je ke1 1 0 0 nboundlines nboundlines 0 1 0 0".toList)
    else if u = "IJK".toList then pySplitWS ( "ie je ke 1 nboundlines nboundlines nboundlines nboundlines 0 0 0 0".toList)
    else if u = "IJK1".toList then pySplitWS ( "ie je ke1 1 nboundlines nboundlines nboundlines nboundlines 0 1 0 0".toList)
    else []
  else []

/-! ## Argument parsers -/

def msgIfLast : Str := "IF statement must be last argument".toList
def msgKvProblem : Str := "Problem extracting arguments and key=value pairs".toList

/-- Loop body of `__ser_arg_parse` (accumulators are reversed at the end). -/
def serArgParseGo (cfg : Cfg) (st : PState) (dir : Str) :
    List Str → List Str → List Str → List Str → Bool → Str →
    Except PErr (List Str × List Str × List Str × Str)
  | [], dirs, keys, values, _, ifS => .ok (dirs.reverse, keys.reverse, values.reverse, ifS)
  | arg :: rest, dirs, keys, values, ifEnc, ifS =>
    if upperStr arg = "IF".toList then serArgParseGo cfg st dir rest dirs keys values true ifS
    else if ifEnc then
      if ifS ≠ [] then .error (exitErr cfg st dir msgIfLast)
      else serArgParseGo cfg st dir rest dirs keys values ifEnc arg
    else
      match splitEq arg with
      | [v] => serArgParseGo cfg st dir rest (v :: dirs) keys values ifEnc ifS
      | [k, v] => serArgParseGo cfg st dir rest dirs (k :: keys) (v :: values) ifEnc ifS
      | _ => .error (exitErr cfg st dir msgKvProblem)

/-- `__ser_arg_parse`: bare args, key/value pairs, optional IF expression. -/
def serArgParse (cfg : Cfg) (st : PState) (args : List Str) :
    Except PErr (List Str × List Str × List Str × Str) :=
  serArgParseGo cfg st (args.headD []) (args.drop 1) [] [] [] false []

def trClass (c : Char) : Bool := identCh c

def trIdxClass (c : Char) : Bool := identCh c || c == '(' || c == ')'

def trTypes : List Str := ["tens".toList, "bd".toList, "surf".toList, "sedimvel".toList]

def firstPre (l : List Str) (s : Str) : Option (Str × Str) :=
  match l with
  | [] => none
  | p :: ps =>
    match stripPre p s with
    | some r => some (p, r)
    | none => firstPre ps s

/-- The anchored tracer-spec regex
`^([a-zA-Z_0-9]+|\$[a-zA-Z_0-9\(\)]+(?:-[a-zA-Z_0-9\(\)]+)?|%all)`
`(?:#(tens|bd|surf|sedimvel))?(?:@([a-zA-Z_0-9]+))?`, returning
`m.groups()`. -/
def trMatch (s : Str) : Option (Str × Option Str × Option Str) :=
  let g1r : Option (Str × Str) :=
    match s with
    | [] => none
    | c :: cs =>
      if trClass c then some (c :: cs.takeWhile trClass, cs.dropWhile trClass)
      else if c = '$' then
        (let t1 := cs.takeWhile trIdxClass
         if t1 = [] then none
         else
           match cs.dropWhile trIdxClass with
           | '-' :: cs2 =>
             (let t2 := cs2.takeWhile trIdxClass
              if t2 = [] then some ('$' :: t1, '-' :: cs2)
              else some ('$' :: t1 ++ '-' :: t2, cs2.dropWhile trIdxClass))
           | r1 => some ('$' :: t1, r1))
      else
        match stripPre ( "%all".toList) (c :: cs) with
        | some r => some ( "%all".toList, r)
        | none => none
  match g1r with
  | none => none
  | some (g1, r) =>
    let p2 : Option Str × Str :=
      match r with
      | '#' :: rr =>
        (match firstPre trTypes rr with
         | some (p, rest) => (some p, rest)
         | none => (none, r))
      | _ => (none, r)
    let g3 : Option Str :=
      match p2.2 with
      | '@' :: rr =>
        (let t := rr.takeWhile trClass
         if t = [] then none else some t)
      | _ => none
    some (g1, p2.1, g3)

/-- `__ser_tracer_parse`. -/
def serTracerParseGo (cfg : Cfg) (st : PState) (dir : Str) :
    List Str → List (Str × Option Str × Option Str) → Bool → Str →
    Except PErr (List (Str × Option Str × Option Str) × Str)
  | [], acc, _, ifS => .ok (acc.reverse, ifS)
  | arg :: rest, acc, ifEnc, ifS =>
    if upperStr arg = "IF".toList then serTracerParseGo cfg st dir rest acc true ifS
    else if ifEnc then
      if ifS ≠ [] then .error (exitErr cfg st dir msgIfLast)
      else serTracerParseGo cfg st dir rest acc ifEnc arg
    else
      match trMatch arg with
      | none => .error (exitErr cfg st dir ( "Tracer specification ".toList ++ arg ++ " is invalid".toList))
      | some g => serTracerParseGo cfg st dir rest (g :: acc) ifEnc ifS

def serTracerParse (cfg : Cfg) (st : PState) (args : List Str) :
    Except PErr (List (Str × Option Str × Option Str) × Str) :=
  serTracerParseGo cfg st (args.headD []) (args.drop 1) [] false []

/-! ## Directive handlers -/

def sq : Str := ['\'']

def ifPre (ifS : Str) : Str := if ifS ≠ [] then "IF (".toList ++ ifS ++ ") THEN\n".toList else []

def ifTab (ifS : Str) : Str := if ifS ≠ [] then "  ".toList else []

def ifEnd (ifS : Str) : Str := if ifS ≠ [] then "ENDIF\n".toList else []

def banner1 : Str := ">>>>>>>>>>>>>>>>>><<<<<<<<<<<<<<<<<<".toList
def banner2 : Str := ">>> WARNING: SERIALIZATION IS ON <<<".toList

/-- The generated text of `__ser_init`. -/
def serInitLine (args : List Str) (ifS : Str) : Str :=
  let tab := ifTab ifS
  let ifPos := (args.map lowerStr).findIdx (fun x => x == "if".toList)
  ifPre ifS
  ++ tab ++ "PRINT *, ".toList ++ sq ++ banner1 ++ sq ++ "\n".toList
  ++ tab ++ "PRINT *, ".toList ++ sq ++ banner2 ++ sq ++ "\n".toList
  ++ tab ++ "PRINT *, ".toList ++ sq ++ banner1 ++ sq ++ "\n".toList
  ++ tab ++ "\n".toList
  ++ tab ++ "! setup serialization environment\n".toList
  ++ tab ++ "call ".toList ++ mInit ++ "(".toList
      ++ joinSep (",".toList) ((args.take ifPos).drop 1) ++ ")\n".toList
  ++ ifEnd ifS

/-- `__ser_init`. -/
def serInit (cfg : Cfg) (st : PState) (args : List Str) : Except PErr PState :=
  match serArgParse cfg st args with
  | .error e => .error e
  | .ok (_, _, _, ifS) => .ok { addCall st mInit with line := serInitLine args ifS }

/-- The generated text of `__ser_option` (with the `verbosity`
off/on value mapping). -/
def serOptionLine (keys values : List Str) (ifS : Str) : Str :=
  let pairs := (keys.zip values).map (fun kv =>
    let v1 := if lowerStr kv.1 = "verbosity".toList ∧ lowerStr kv.2 = "off".toList then "0".toList else kv.2
    let v2 := if lowerStr kv.1 = "verbosity".toList ∧ lowerStr v1 = "on".toList then "1".toList else v1
    kv.1 ++ "=".toList ++ v2)
  ifPre ifS
  ++ "call ".toList ++ mOption ++ "(".toList ++ joinSep (", ".toList) pairs ++ ")\n".toList
  ++ ifEnd ifS

/-- `__ser_option`. -/
def serOption (cfg : Cfg) (st : PState) (args : List Str) : Except PErr PState :=
  match serArgParse cfg st args with
  | .error e => .error e
  | .ok (dirs, keys, values, ifS) =>
    if dirs.length ≠ 0 then
      .error (exitErr cfg st (args.headD []) ( "Must specify a name and a list of key=value pairs".toList))
    else .ok { addCall st mOption with line := serOptionLine keys values ifS }

/-- The generated text of `__ser_metainfo`. -/
def serMetainfoLine (dirs keys values : List Str) (ifS : Str) : Str :=
  let tab := ifTab ifS
  ifPre ifS
  ++ ((keys.zip values).map (fun kv =>
        tab ++ "CALL ".toList ++ mSerinfo ++ "(ppser_serializer, \"".toList ++ kv.1
          ++ "\", ".toList ++ kv.2 ++ ")\n".toList)).flatten
  ++ (dirs.map (fun d =>
        tab ++ "CALL ".toList ++ mSerinfo ++ "(ppser_serializer, \"".toList ++ d
          ++ "\", ".toList ++ d ++ ")\n".toList)).flatten
  ++ ifEnd ifS

/-- `__ser_metainfo`. -/
def serMetainfo (cfg : Cfg) (st : PState) (args : List Str) : Except PErr PState :=
  match serArgParse cfg st args with
  | .error e => .error e
  | .ok (dirs, keys, values, ifS) =>
    .ok { addCall st mSerinfo with line := serMetainfoLine dirs keys values ifS }

/-- `__ser_verbatim`. -/
def serVerbatim (_cfg : Cfg) (st : PState) (args : List Str) : Except PErr PState :=
  .ok { st with line := joinSep ( " ".toList) (args.drop 1) ++ "\n".toList }

def dtInteger : List Str := [sq ++ "int".toList ++ sq, "ppser_intlength".toList]
def dtReal : List Str := ["ppser_realtype".toList, "ppser_reallength".toList]

/-- `dirs` after the `''`-padding and name-quoting steps of
`__ser_register`. -/
def regQuoted (dirs0 : List Str) : List Str :=
  match (if dirs0.length = 2 then dirs0 ++ [[]] else dirs0) with
  | n :: rest => (sq ++ n ++ sq) :: rest
  | [] => []

/-- The `datatypes[dirs[1]]` lookup of `__ser_register`. -/
def regTypeOf (t : Str) : Option (List Str) :=
  if t = "integer".toList then some dtInteger
  else if t = "real".toList then some dtReal
  else none

/-- The generated text of `__ser_register` (type splice plus the
shortcut expansion of a fourth argument). -/
def regLine (dirs2 dt : List Str) (ifS : Str) : Str :=
  let dirs3 := dirs2.take 1 ++ dt ++ dirs2.drop 2
  let dirs4 :=
    if dirs3.length = 4 then
      match regShortcuts (dirs3.getD 3 []) with
      | [] => dirs3
      | l => dirs3.take 3 ++ l
    else dirs3
  ifPre ifS
  ++ ifTab ifS ++ "call ".toList ++ mRegister ++ "(ppser_serializer, ".toList
    ++ joinSep (", ".toList) dirs4 ++ ")\n".toList
  ++ ifEnd ifS

/-- `__ser_register`.  The `datatypes[dirs[1]]` lookup raises an uncaught
`KeyError` for unknown type tags (the guarded version is commented out in
the source). -/
def serRegister (cfg : Cfg) (st : PState) (args : List Str) : Except PErr PState :=
  match serArgParse cfg st args with
  | .error e => .error e
  | .ok (dirs0, keys, _, ifS) =>
    if dirs0.length < 2 then
      .error (exitErr cfg st (args.headD []) ( "Must specify a name, a type and the field sizes".toList))
    else
      match regTypeOf ((regQuoted dirs0).getD 1 []) with
      | none => .error (.keyError ((regQuoted dirs0).getD 1 []))
      | some dt =>
        if keys.length > 0 then
          .error (exitErr cfg st (args.headD []) ( "Metainformation for fields are not yet implemented".toList))
        else .ok { addCall st mRegister with line := regLine (regQuoted dirs0) dt ifS }

/-- `__ser_registertracers`. -/
def serRegistertracers (_cfg : Cfg) (st : PState) (_args : List Str) : Except PErr PState :=
  .ok { addCall st mRegistertracers with line := "call fs_RegisterAllTracers()\n".toList }

/-- The generated text of `__ser_zero`. -/
def serZeroLine (cfg : Cfg) (dirs : List Str) (ifS : Str) : Str :=
  ifPre ifS
  ++ (dirs.map (fun a => ifTab ifS ++ a ++ " = 0.0_".toList ++ cfg.realName ++ "\n".toList)).flatten
  ++ ifEnd ifS

/-- `__ser_zero`. -/
def serZero (cfg : Cfg) (st : PState) (args : List Str) : Except PErr PState :=
  match serArgParse cfg st args with
  | .error e => .error e
  | .ok (dirs, keys, _, ifS) =>
    if keys.length > 0 then
      .error (exitErr cfg st (args.headD []) ( "Must specify a list of fields".toList))
    else .ok { st with line := serZeroLine cfg dirs ifS }

/-- The generated text of `__ser_savepoint`. -/
def serSavepointLine (dirs keys values : List Str) (ifS : Str) : Str :=
  let tab := ifTab ifS
  ifPre ifS
  ++ tab ++ "call ".toList ++ mSavepoint ++ "(".toList ++ sq ++ dirs.headD [] ++ sq
    ++ ", ppser_savepoint)\n".toList
  ++ ((keys.zip values).map (fun kv =>
        tab ++ "call ".toList ++ mSpinfo ++ "(ppser_savepoint, ".toList ++ sq ++ kv.1 ++ sq
          ++ ", ".toList ++ kv.2 ++ ")\n".toList)).flatten
  ++ ifEnd ifS

/-- `__ser_savepoint`. -/
def serSavepoint (cfg : Cfg) (st : PState) (args : List Str) : Except PErr PState :=
  match serArgParse cfg st args with
  | .error e => .error e
  | .ok (dirs, keys, values, ifS) =>
    if dirs.length ≠ 1 then
      .error (exitErr cfg st (args.headD []) ( "Must specify a name and a list of key=value pairs".toList))
    else .ok { addCall (addCall st mSavepoint) mSpinfo with line := serSavepointLine dirs keys values ifS }

/-- The `self.modes` lookup of `__ser_mode` (`str()` of the mode number,
or the raw argument). -/
def modeArgOf (a1 : Str) : Str :=
  if a1 = "write".toList then "0".toList
  else if a1 = "read".toList then "1".toList
  else if a1 = "CPU".toList then "0".toList
  else if a1 = "GPU".toList then "1".toList
  else a1

/-- The generated text of `__ser_mode`. -/
def serModeLine (a1 : Str) (ifS : Str) : Str :=
  ifPre ifS ++ ifTab ifS ++ "call ".toList ++ mMode ++ "(".toList ++ modeArgOf a1 ++ ")\n".toList ++ ifEnd ifS

/-- `__ser_mode`.  `args[1]` raises an uncaught `IndexError` when absent. -/
def serMode (cfg : Cfg) (st : PState) (args : List Str) : Except PErr PState :=
  match serArgParse cfg st args with
  | .error e => .error e
  | .ok (_, _, _, ifS) =>
    match args.get? 1 with
    | none => .error .indexError
    | some a1 => .ok { addCall st mMode with line := serModeLine a1 ifS }

/-- The three registry additions of `__ser_data`. -/
def dataCallsAdd (st : PState) : PState :=
  addCall (addCall (addCall st mDatawrite) mDataread) mGetmode

/-- The generated text of `__ser_data` (the mode `SELECT CASE` with
write/read branches and accelerator update hints). -/
def serDataLine (keys values : List Str) (ifS : Str) : Str :=
  let tab := ifTab ifS
  ifPre ifS
  ++ tab ++ "SELECT CASE ( ".toList ++ mGetmode ++ "() )\n".toList
  ++ tab ++ "  CASE(0)\n".toList
  ++ ((keys.zip values).map (fun kv =>
        tab ++ "    ACC_PREFIX UPDATE HOST ( ".toList ++ kv.2 ++ " ), IF (i_am_accel_node) \n".toList
        ++ tab ++ "    call ".toList ++ mDatawrite ++ "(ppser_serializer, ppser_savepoint, ".toList
          ++ sq ++ kv.1 ++ sq ++ ", ".toList ++ kv.2 ++ ")\n".toList)).flatten
  ++ tab ++ "  CASE(1)\n".toList
  ++ ((keys.zip values).map (fun kv =>
        tab ++ "    call ".toList ++ mDataread ++ "(ppser_serializer_ref, ppser_savepoint, ".toList
          ++ sq ++ kv.1 ++ sq ++ ", ".toList ++ kv.2 ++ ")\n".toList
        ++ tab ++ "    ACC_PREFIX UPDATE DEVICE ( ".toList ++ kv.2 ++ " ), IF (i_am_accel_node) \n".toList)).flatten
  ++ tab ++ "END SELECT\n".toList
  ++ ifEnd ifS

/-- `__ser_data`. -/
def serData (cfg : Cfg) (st : PState) (args : List Str) : Except PErr PState :=
  match serArgParse cfg st args with
  | .error e => .error e
  | .ok (dirs, keys, values, ifS) =>
    if dirs.length ≠ 0 ∧ ¬(dirs.length = 1 ∧ "removeintentin".toList ∈ dirs) then
      .error (exitErr cfg st (args.headD []) ( "Must specify a list of key=value pairs with optional removeintentin".toList))
    else if "removeintentin".toList ∈ dirs then
      .ok { dataCallsAdd st with
              intentinToRemove := values.foldl (fun acc v => addUniq acc (dataStrip v)) st.intentinToRemove,
              line := serDataLine keys values ifS }
    else .ok { dataCallsAdd st with line := serDataLine keys values ifS }

/-- Function name selected for one tracer spec in `__ser_tracer`. -/
def trFnOf (t : Str × Option Str × Option Str) : Str :=
  if t.1 = "%all".toList then "ppser_write_tracer_all".toList
  else
    match t.1 with
    | '$' :: _ => "ppser_write_tracer_bx_idx".toList
    | _ => "ppser_write_tracer_by_name".toList

/-- Argument list built for one tracer spec in `__ser_tracer`. -/
def trArgsOf (t : Str × Option Str × Option Str) : List Str :=
  (if t.1 = "%all".toList then []
   else
     match t.1 with
     | '$' :: idxs => if '-' ∈ idxs then splitCh '-' idxs else [idxs]
     | _ => [sq ++ t.1 ++ sq])
  ++ [( "stype=".toList) ++ sq ++ (t.2.1.getD []) ++ sq]
  ++ (match t.2.2 with
      | some tl => if tl = [] then [] else [( "timelevel=".toList) ++ tl]
      | none => [])

/-- The generated text of `__ser_tracer`. -/
def serTracerLine (specs : List (Str × Option Str × Option Str)) (ifS : Str) : Str :=
  ifPre ifS
  ++ (specs.map (fun t =>
        ifTab ifS ++ "call ".toList ++ trFnOf t ++ "(".toList
          ++ joinSep (", ".toList) (trArgsOf t) ++ ")\n".toList)).flatten
  ++ ifEnd ifS

/-- `__ser_tracer`. -/
def serTracer (cfg : Cfg) (st : PState) (args : List Str) : Except PErr PState :=
  match serTracerParse cfg st args with
  | .error e => .error e
  | .ok (specs, ifS) =>
    .ok { specs.foldl (fun s t => addCall s (trFnOf t)) st with line := serTracerLine specs ifS }

/-- `__ser_cleanup`. -/
def serCleanup (_cfg : Cfg) (st : PState) (args : List Str) : Except PErr PState :=
  .ok { addCall st mCleanup with
        line := "! cleanup serialization environment\n".toList
          ++ "call ".toList ++ mCleanup ++ "(".toList ++ joinSep (",".toList) (args.drop 1) ++ ")\n".toList }

/-- `__ser_on`. -/
def serOn (_cfg : Cfg) (st : PState) (_args : List Str) : Except PErr PState :=
  .ok { addCall st mOn with line := "call ".toList ++ mOn ++ "()\n".toList }

/-- `__ser_off`. -/
def serOff (_cfg : Cfg) (st : PState) (_args : List Str) : Except PErr PState :=
  .ok { addCall st mOff with line := "call ".toList ++ mOff ++ "()\n".toList }

/-! ## Line recognizers (`__re_*`) and the lexer -/

/-- Keyword dispatch of `__re_ser` (the elif chain, source order);
`u` is `args[0].upper()`. -/
def dispatchKw (cfg : Cfg) (st : PState) (args : List Str) (u : Str) : Except PErr PState :=
  if u ∈ langInit then serInit cfg st args
  else if u ∈ langOption then serOption cfg st args
  else if u ∈ langMetainfo then serMetainfo cfg st args
  else if u ∈ langVerbatim then serVerbatim cfg st args
  else if u ∈ langRegister then serRegister cfg st args
  else if u ∈ langSavepoint then serSavepoint cfg st args
  else if u ∈ langZero then serZero cfg st args
  else if u ∈ langData then serData cfg st args
  else if u ∈ langTracer then serTracer cfg st args
  else if u ∈ langRegistertracers then serRegistertracers cfg st args
  else if u ∈ langCleanup then serCleanup cfg st args
  else if u ∈ langOn then serOn cfg st args
  else if u ∈ langOff then serOff cfg st args
  else if u ∈ langMode then serMode cfg st args
  else .error (exitErr cfg st (args.headD []) ( "Unknown directive encountered".toList))

/-- Tokenization plus dispatch for a non-empty directive group
(`args[0]` on an empty token list raises `IndexError`). -/
def dispatchSer (cfg : Cfg) (st : PState) (g : Str) : Except PErr PState :=
  match tokenize g with
  | [] => .error .indexError
  | a0 :: rest => dispatchKw cfg st (a0 :: rest) (upperStr a0)

/-- `__re_ser`: the Bool is the truthiness of the `r1` match. -/
def reSer (cfg : Cfg) (st : PState) : Except PErr (Bool × PState) :=
  match serRest st.line with
  | none => .ok (false, st)
  | some [] => .ok (true, st)
  | some (c :: g) =>
    match dispatchSer cfg st (c :: g) with
    | .error e => .error e
    | .ok st' => .ok (true, st')

/-- `__re_module`. -/
def reModule (cfg : Cfg) (st : PState) : Except PErr PState :=
  match matchUnit st.line with
  | none => .ok st
  | some (kw, name) =>
    if upperStr name = "PROCEDURE".toList then .ok st
    else if st.curModule ≠ [] then
      .error (exitErr cfg st [] ( "Unexpected ".toList ++ kw ++ " statement".toList))
    else .ok { st with curModule := name }

def ppserSix : List Str :=
  ["ppser_savepoint".toList, "ppser_serializer".toList, "ppser_serializer_ref".toList,
   "ppser_intlength".toList, "ppser_reallength".toList, "ppser_realtype".toList]

/-- `calls_pp` of `__re_implicit`. -/
def callsPPOf (e : EnumFn) (st : PState) : List Str :=
  (e st.calls).filter (fun c => ( "ppser".toList).isPrefixOf c)

/-- `calls_fs` of `__re_implicit`. -/
def callsFSOf (e : EnumFn) (st : PState) : List Str :=
  (e st.calls).filter (fun c => !(( "ppser".toList).isPrefixOf c))

def implicitNcalls (e : EnumFn) (st : PState) : Nat :=
  (callsPPOf e st).length + (callsFSOf e st).length

/-- The synthesized import block of `__re_implicit` (`calls_pp` is
extended by the six fixed auxiliary symbols when any call was seen). -/
def implicitUseBlock (cfg : Cfg) (e : EnumFn) (st : PState) : Str :=
  "\n".toList
  ++ (if cfg.ifdef ≠ [] then "#ifdef ".toList ++ cfg.ifdef ++ "\n".toList else [])
  ++ (if (callsFSOf e st).length > 0 then
        "USE ".toList ++ cfg.modName ++ ", ONLY: ".toList ++ joinSep (", ".toList) (callsFSOf e st) ++ "\n".toList
      else [])
  ++ (if (if implicitNcalls e st > 0 then callsPPOf e st ++ ppserSix else callsPPOf e st).length > 0 then
        "USE utils_ppser, ONLY: ".toList
          ++ joinSep (", ".toList) (if implicitNcalls e st > 0 then callsPPOf e st ++ ppserSix else callsPPOf e st)
          ++ "\n".toList
      else [])
  ++ (if cfg.ifdef ≠ [] then "#endif\n".toList else [])
  ++ "\n".toList

/-- `__re_implicit`: at `implicit none`, synthesize the USE block once the
registry is non-empty (at most once per pass).  `e` models the iteration
order of the `self.__calls` set. -/
def reImplicit (cfg : Cfg) (e : EnumFn) (st : PState) : PState :=
  if matchImplicit st.line then
    if implicitNcalls e st > 0 ∧ ¬st.implicitnoneDone then
      { st with line := implicitUseBlock cfg e st ++ st.line,
                implicitnoneDone := true, implicitnoneFound := true }
    else { st with implicitnoneFound := true }
  else st

/-- `__re_endmodule`. -/
def reEndmodule (cfg : Cfg) (st : PState) : Except PErr PState :=
  match matchEndUnit st.line with
  | none => .ok st
  | some (kw, name) =>
    if st.curModule = [] then
      .error (exitErr cfg st [] ( "Unexpected \"end ".toList ++ kw ++ "\" statement".toList))
    else if st.curModule ≠ name then
      .error (exitErr cfg st [] ( "Was expecting \"end ".toList ++ kw ++ " ".toList ++ st.curModule ++ "\"".toList))
    else .ok { st with curModule := [] }

/-- The declared-variable names extracted by `__re_def` (strip, remove
spaces, drop parenthesized dimension groups). -/
def reDefVars (st : PState) : List Str :=
  ((splitTopC ((splitCC st.line).getD 1 [])).map
    (fun x => (pyStrip x).filter (fun c => !(c == ' ')))).map remParens

/-- `fields_in_this_line` of `__re_def`. -/
def reDefFields (st : PState) : List Str :=
  st.intentinToRemove.filter (fun x => (reDefVars st).contains x)

/-- `__re_def`: rewrite `intent(in)` declarations of flagged variables
into two guarded variants, recording what was found. -/
def reDef (cfg : Cfg) (st : PState) : PState :=
  if hasIntentDecl st.line then
    if reDefFields st ≠ [] then
      { st with
          intentinRemoved := st.intentinRemoved
            ++ (reDefFields st).filter (fun x => !(st.intentinRemoved.contains x)),
          line := "#ifdef ".toList ++ cfg.ifdef ++ "\n".toList ++ remIntent st.line
                    ++ "#else\n".toList ++ st.line ++ "#endif\n".toList }
    else
      { st with
          intentinRemoved := st.intentinRemoved
            ++ (reDefFields st).filter (fun x => !(st.intentinRemoved.contains x)) }
  else st

/-- The `#ifdef`/`#endif` wrapping step of `lexer`: `matched` is the
truthiness of the `__re_ser` match for the current line. -/
def guardWrap (cfg : Cfg) (matched : Bool) (st : PState) : PState :=
  if matched then
    (if cfg.ifdef ≠ [] ∧ st.ser = false then
       { st with line := "#ifdef ".toList ++ cfg.ifdef ++ "\n".toList ++ st.line, ser := true }
     else st)
  else
    (if cfg.ifdef ≠ [] ∧ st.ser = true then
       { st with line := "#endif\n".toList ++ st.line, ser := false }
     else st)

/-- The consistency checks run by `lexer` when `final` is set. -/
def lexerChecks (cfg : Cfg) (final : Bool) (st6 : PState) : Except PErr PState :=
  if final then
    if st6.ser = true then
      .error (exitErr cfg st6 [] ( "Unterminated #ifdef ".toList ++ cfg.ifdef ++ " encountered".toList))
    else if st6.curModule ≠ [] then
      .error (exitErr cfg st6 [] ( "Unterminated module or program unit encountered".toList))
    else if st6.calls.length > 0 ∧ st6.implicitnoneFound = false then
      .error (exitErr cfg st6 [] ( "No IMPLICIT NONE statement found in code".toList))
    else .ok st6
  else .ok st6

/-- `lexer`: evaluate one logical line (and the end-of-file checks when
`final` is set). -/
def lexer (cfg : Cfg) (e : EnumFn) (final : Bool) (st : PState) : Except PErr PState :=
  match reModule cfg st with
  | .error er => .error er
  | .ok st1 =>
    match reEndmodule cfg (reImplicit cfg e st1) with
    | .error er => .error er
    | .ok st3 =>
      match reSer cfg (reDef cfg st3) with
      | .error er => .error er
      | .ok (matched, st5) => lexerChecks cfg final (guardWrap cfg matched st5)

/-! ## The parse loop (`parse`) and the two-pass driver (`preprocess`) -/

/-- The body of one `parse`-loop iteration after continuation handling:
the current line has been extended and the line counter bumped. -/
def feedBody (cfg : Cfg) (e : EnumFn) (gen : Bool) (st1 : PState) : Except PErr PState :=
  if contLineOut st1.line then Except.ok { st1 with line := chopCont st1.line }
  else
    match lexer cfg e false st1 with
    | .error er => .error er
    | .ok st2 =>
      if gen then .ok { st2 with outBuf := st2.outBuf ++ st2.line, line := [] }
      else .ok { st2 with line := [] }

/-- One iteration of the `for line in input_file` loop of `parse`. -/
def feedLine (cfg : Cfg) (e : EnumFn) (gen : Bool) (st : PState) (raw : Str) : Except PErr PState :=
  match (if st.line ≠ [] then
           (if contLineIn raw then Except.ok (contLineSub raw)
            else Except.error (exitErr cfg st [] ( "Incorrect line continuation encountered".toList)))
         else Except.ok raw : Except PErr Str) with
  | .error er => .error er
  | .ok l => feedBody cfg e gen { st with line := st.line ++ l, linenum := st.linenum + 1 }

def feedAll (cfg : Cfg) (e : EnumFn) (gen : Bool) : PState → List Str → Except PErr PState
  | st, [] => .ok st
  | st, l :: ls =>
    match feedLine cfg e gen st l with
    | .error er => .error er
    | .ok st' => feedAll cfg e gen st' ls

/-- The per-pass reset at the top of `parse` (note: `self.__calls`,
`self.intentin_to_remove` and `self.intentin_removed` are NOT reset). -/
def parseResetSt (st : PState) : PState :=
  { st with ser := false, line := [], linenum := 0, curModule := [],
            outBuf := [], implicitnoneFound := false, implicitnoneDone := false }

def missingIntent (st : PState) : List Str :=
  st.intentinToRemove.filter (fun x => !(st.intentinRemoved.contains x))

/-- The line loop of `parse` followed by the final `lexer` call. -/
def passBody (cfg : Cfg) (e : EnumFn) (gen : Bool) (lines : List Str) (st0 : PState) :
    Except PErr PState :=
  match feedAll cfg e gen (parseResetSt st0) lines with
  | .error er => .error er
  | .ok st1 => lexer cfg e true st1

/-- `parse(generate)`: one full pass over the file (`passBody` followed by
the `intentin_to_remove`/`intentin_removed` length check). -/
def parsePass (cfg : Cfg) (e : EnumFn) (gen : Bool) (lines : List Str) (st0 : PState) :
    Except PErr PState :=
  match passBody cfg e gen lines st0 with
  | .error er => .error er
  | .ok st2 =>
    if gen ∧ st2.intentinToRemove.length ≠ st2.intentinRemoved.length then
      .error (exitErr cfg st2 []
        ( "cannot find INTENT(IN) declaration for ".toList ++ joinSep (", ".toList) (missingIntent st2)))
    else .ok st2

/-- `preprocess`: analysis pass, then generation pass. -/
def preprocess (cfg : Cfg) (e : EnumFn) (lines : List Str) (st0 : PState) : Except PErr PState :=
  match parsePass cfg e false lines st0 with
  | .error er => .error er
  | .ok st1 => parsePass cfg e true lines st1

/-! ## Convenience instances used by the theorems -/

def stOf : Except PErr PState → PState
  | .ok st => st
  | .error _ => initState

def outOf (r : Except PErr PState) : Str := (stOf r).outBuf

def isOkE : Except PErr PState → Bool
  | .ok _ => true
  | .error _ => false

def idEnum : EnumFn := fun l => l

def revEnum : EnumFn := fun l => l.reverse

/-- The default configuration of `__init__` with a placeholder file name. -/
def cfg0 : Cfg :=
  { infile := "input.f90".toList, ifdef := "SERIALIZE".toList,
    realName := "ireals".toList, modName := "m_serialize".toList }

/-! ## Concrete input files used by the claim theorems -/

/-- A file whose only (and hence last) logical line is directive-derived. -/
def fileC1 : List Str := ["!$SER\n".toList]

/-- A file with one symbol-referencing directive and an anchor line. -/
def fileC2 : List Str := ["implicit none\n".toList, "!$SER ON\n".toList, "x\n".toList]

/-- Two symbol-referencing directives, then the anchor: the
synthesized import statement serializes the two-element registry set. -/
def fileC4 : List Str := ["!$SER ON\n".toList, "!$SER OFF\n".toList, "implicit none\n".toList]

/-- A directive line is present (`verbatim`), but it references no
external-API symbol, and no anchor statement occurs in the file. -/
def fileC7 : List Str := ["!$SER VERBATIM hello\n".toList, "x\n".toList]

/-! ## C1 -/

/-- **C1** (code bug): the spec says an unterminated generated region at
end of file is fatal, and the source even contains the corresponding
check (`'Unterminated #ifdef ... encountered'` in `lexer`), but that
check is unreachable: the final `lexer` call first runs `__re_ser` on the
empty line, whose else-branch prepends the closing `#endif` to the
discarded current line and resets the guard flag to `False` *before* the
check is evaluated.  Consequently a file whose last logical line is
directive-derived is accepted without error, and its output ends with an
unmatched `#ifdef SERIALIZE` guard-open marker (the `#endif` is never
written to the output buffer). -/
theorem c1_unterminated_guard_not_fatal :
    isOkE (preprocess cfg0 idEnum fileC1 initState) = true
    ∧ outOf (preprocess cfg0 idEnum fileC1 initState) =
        "#ifdef SERIALIZE\n".toList ++ "!$SER\n".toList := by
  exact ⟨rfl, rfl⟩

/-! ## C2 -/

/-- **C2** (counterexample): the Call Registry is *not* reset at the start
of a pass.  After the analysis pass over `fileC2` the registry holds
`fs_enable_serialization`, and the per-pass reset (`parseResetSt`, the
flag block at the top of `parse`) keeps it, so the generation pass of
`preprocess` begins with a non-empty registry carried over from pass 1 —
contradicting the claim that each pass starts with an empty registry. -/
theorem c2_registry_not_reset_counterexample :
    isOkE (parsePass cfg0 idEnum false fileC2 initState) = true
    ∧ (parseResetSt (stOf (parsePass cfg0 idEnum false fileC2 initState))).calls = [mOn] := by
  exact ⟨rfl, rfl⟩

/-- **C2** (amended): the registry is initialized empty once per file (in
`__init__`), and the per-pass reset at the top of `parse` leaves
`self.__calls` untouched: whatever the registry holds when a pass begins
is exactly what the previous pass left there. -/
theorem c2_registry_preserved_across_passes :
    (∀ st : PState, (parseResetSt st).calls = st.calls) ∧ initState.calls = [] := by
  exact ⟨fun st => rfl, rfl⟩

/-! ## C5 -/

/-- **C5** (counterexample): in `__ser_arg_parse`, a token spelling the
reserved marker `IF` (case-insensitively) is always skipped by the first
branch of the loop, even in conditional mode.  So the token sequence
`data IF a IF` — the marker followed by two further tokens — parses
successfully (with conditional expression `a`) instead of aborting. -/
theorem c5_extra_if_token_accepted :
    serArgParse cfg0 initState
        ["data".toList, "IF".toList, "a".toList, "IF".toList] =
      .ok ([], [], [], "a".toList) := by
  exact rfl

/-! ## C6 -/

def regBadArgs : List Str := ["REGISTER".toList, "u".toList, "badtype".toList]
def regIntArgs : List Str := ["REGISTER".toList, "n".toList, "integer".toList, "1".toList]
def regRealArgs : List Str := ["REG".toList, "u".toList, "real".toList, "KSize".toList]

/-- **C6** (code bug): for a `register` directive whose declared type is
not `integer` or `real`, the source evaluates `datatypes[dirs[1]]`
directly — the guarded lookup that would call `__exit_error` (and hence
report file name and line number) is commented out — so processing dies
with an uncaught Python `KeyError` that carries only the unknown tag, not
the file/line report the spec promises.  The recognized tags do resolve
to their symbol pairs in the emitted `fs_register_field` call:
`integer ↦ ('int', ppser_intlength)` and
`real ↦ (ppser_realtype, ppser_reallength)`. -/
theorem c6_register_type_error_and_resolution :
    serRegister cfg0 initState regBadArgs = .error (.keyError ( "badtype".toList))
    ∧ (stOf (serRegister cfg0 initState regIntArgs)).line =
        "call fs_register_field(ppser_serializer, ".toList ++ sq ++ "n".toList ++ sq
          ++ ", ".toList ++ sq ++ "int".toList ++ sq ++ ", ppser_intlength, 1)\n".toList
    ∧ (stOf (serRegister cfg0 initState regRealArgs)).line =
        "call fs_register_field(ppser_serializer, ".toList ++ sq ++ "u".toList ++ sq
          ++ ", ppser_realtype, ppser_reallength, KSize)\n".toList := by
  exact ⟨rfl, rfl, rfl⟩

/-! ## C4, counterexample -/

/-- **C4** (counterexample): two runs on the identical input `fileC4` and
identical configuration, differing only in the iteration order of the
call-registry `set` (both orders are valid enumerations of the same set,
and Python's per-process string-hash randomization makes the realized
order vary between runs), produce different bytes: the synthesized
`USE m_serialize, ONLY: ...` statement lists the two collected symbols in
enumeration order. -/
theorem c4_determinism_counterexample :
    EnumOK idEnum ∧ EnumOK revEnum
    ∧ outOf (preprocess cfg0 idEnum fileC4 initState) ≠
        outOf (preprocess cfg0 revEnum fileC4 initState) := by
  refine ⟨fun l => List.Perm.refl l, fun l => List.reverse_perm l, ?_⟩
  decide

/-! ## C7 -/

/-- The end-of-file check chain in `lexer(final=True)`: a state it accepts
cannot have a non-empty call registry without the anchor having been
found. -/
theorem lexerChecks_ok_anchor (cfg : Cfg) (st6 st' : PState)
    (h : lexerChecks cfg true st6 = .ok st') :
    st'.calls = [] ∨ st'.implicitnoneFound = true := by
  unfold lexerChecks at h
  repeat' split at h
  all_goals first
    | exact Except.noConfusion h
    | exact absurd rfl ‹¬true = true›
    | (rename_i hcond
       cases h
       rcases not_and_or.mp hcond with h1 | h2
       · exact Or.inl (List.length_eq_zero.mp (Nat.eq_zero_of_not_pos h1))
       · exact Or.inr (by simpa using h2))

theorem lexer_final_anchor (cfg : Cfg) (e : EnumFn) (st st' : PState)
    (h : lexer cfg e true st = .ok st') :
    st'.calls = [] ∨ st'.implicitnoneFound = true := by
  unfold lexer at h
  repeat' split at h
  all_goals first
    | exact Except.noConfusion h
    | exact lexerChecks_ok_anchor _ _ _ h

/-- A file with one registry-touching directive and no import-anchor
line. -/
def fileC7b : List Str := [( "!$SER ON\n".toList)]

/-- **C7** (amended): at end of file — after the guard region has been
auto-closed — and provided no unit is still open (the unterminated-unit
check runs first), a non-empty Call Registry with no import-anchor line
seen aborts with the fatal error whose message is exactly
`No IMPLICIT NONE statement found in code`, and otherwise the end-of-file
checks pass; consequently every accepted pass has an empty registry or a
found anchor — the trigger is the non-empty registry, not directive
presence.  The third part exhibits the error, with its file/line report,
on a concrete anchor-free file whose directive touches the registry. -/
theorem c7_missing_anchor_fatal_iff_calls :
    (∀ (cfg : Cfg) (st6 : PState), st6.ser = false → st6.curModule = [] →
       lexerChecks cfg true st6 =
         (if st6.calls.length > 0 ∧ st6.implicitnoneFound = false then
            .error (exitErr cfg st6 [] ( "No IMPLICIT NONE statement found in code".toList))
          else .ok st6))
    ∧ (∀ (cfg : Cfg) (e : EnumFn) (gen : Bool) (lines : List Str) (st0 st' : PState),
         parsePass cfg e gen lines st0 = .ok st' →
         st'.calls = [] ∨ st'.implicitnoneFound = true)
    ∧ (∃ n l, parsePass cfg0 idEnum false fileC7b initState =
         .error (PErr.exitError cfg0.infile n []
           ( "No IMPLICIT NONE statement found in code".toList) l)) := by
  refine ⟨?_, ?_, ?_⟩
  · intro cfg st6 hser hmod
    unfold lexerChecks
    rw [if_pos rfl]
    rw [if_neg (by rw [hser]; simp)]
    rw [if_neg (by rw [hmod]; simp)]
  · intro cfg e gen lines st0 st' h
    unfold parsePass at h
    split at h
    · exact absurd h (by simp)
    · rename_i st2 hb
      split at h
      · exact absurd h (by simp)
      · cases h
        unfold passBody at hb
        split at hb
        · exact absurd hb (by simp)
        · exact lexer_final_anchor _ _ _ _ hb
  · exact ⟨_, _, rfl⟩

/-- **C7** witness: the end-of-file checks applied to a concrete closed
state with a one-symbol registry and no anchor found produce exactly
the `No IMPLICIT NONE` error. -/
theorem c7_missing_anchor_fatal_iff_calls_witness :
    lexerChecks cfg0 true { initState with calls := [( "x".toList)] } =
      .error (exitErr cfg0 { initState with calls := [( "x".toList)] } []
        ( "No IMPLICIT NONE statement found in code".toList)) := by
  have h := (c7_missing_anchor_fatal_iff_calls).1 cfg0
    { initState with calls := [( "x".toList)] } rfl rfl
  rw [h]
  rfl

/-- **C7** (counterexample): `fileC7` contains a directive line (its first
line matches the directive pattern) and no import-anchor line anywhere,
yet the full two-pass run is accepted without any error — because the
`verbatim` directive adds no symbol to the Call Registry and the
structural check fires only for a non-empty registry. -/
theorem c7_directive_without_anchor_accepted :
    serRest ( "!$SER VERBATIM hello\n".toList) ≠ none
    ∧ matchImplicit ( "!$SER VERBATIM hello\n".toList) = false
    ∧ matchImplicit ( "x\n".toList) = false
    ∧ isOkE (preprocess cfg0 idEnum fileC7 initState) = true := by
  refine ⟨?_, rfl, rfl, rfl⟩
  decide

/-! ## Shared string lemmas -/

theorem dropWhile_append_of_all {p : Char → Bool} {x y : Str} (h : ∀ a ∈ x, p a = true) :
    (x ++ y).dropWhile p = y.dropWhile p := by
  induction x with
  | nil => rfl
  | cons a xs ih =>
    simp only [List.cons_append, List.dropWhile_cons, h a (by simp)]
    exact ih (fun b hb => h b (List.mem_cons_of_mem _ hb))

theorem dropWhile_cons_of_neg {p : Char → Bool} {c : Char} {cs : Str} (h : p c = false) :
    (c :: cs).dropWhile p = c :: cs := by
  simp [List.dropWhile_cons, h]

theorem dropWhile_eq_nil_of_all {p : Char → Bool} {x : Str} (h : ∀ a ∈ x, p a = true) :
    x.dropWhile p = [] := by
  induction x with
  | nil => rfl
  | cons a xs ih =>
    simp only [List.dropWhile_cons, h a (by simp)]
    exact ih (fun b hb => h b (List.mem_cons_of_mem _ hb))

theorem dropWhile_append_nonempty {p : Char → Bool} {x y : Str} {c : Char} {cs : Str}
    (h : x.dropWhile p = c :: cs) :
    (x ++ y).dropWhile p = c :: (cs ++ y) := by
  induction x with
  | nil => simp at h
  | cons a xs ih =>
    by_cases hpa : p a = true
    · simp only [List.dropWhile_cons, hpa, if_true] at h
      simp only [List.cons_append, List.dropWhile_cons, hpa, if_true]
      exact ih h
    · simp only [List.dropWhile_cons, hpa, if_false] at h
      rw [Bool.not_eq_true] at hpa
      simp only [List.cons_append, List.dropWhile_cons, hpa]
      cases h
      simp

theorem stripCI_head_ne {p c : Char} {ps cs : Str} (h : ¬ lowerChar c = lowerChar p) :
    stripCI (p :: ps) (c :: cs) = none := by
  simp [stripCI, h]

theorem stripCI_cons_eq {p c : Char} {ps cs : Str} (h : lowerChar c = lowerChar p) :
    stripCI (p :: ps) (c :: cs) = stripCI ps cs := by
  simp [stripCI, h]

/-- A string whose lowering equals that of the pattern strips cleanly. -/
theorem stripCI_of_lower {P M : Str} (h : M.map lowerChar = P.map lowerChar) (r : Str) :
    stripCI P (M ++ r) = some r := by
  induction P generalizing M with
  | nil =>
    have : M = [] := by
      cases M with
      | nil => rfl
      | cons a as => simp at h
    simp [this, stripCI]
  | cons p ps ih =>
    cases M with
    | nil => simp at h
    | cons c cs =>
      simp only [List.map_cons, List.cons.injEq] at h
      simp only [List.cons_append]
      rw [stripCI_cons_eq h.1]
      exact ih h.2

theorem stripCI_consumed {P : Str} :
    ∀ {s r : Str}, stripCI P s = some r → ∃ q, s = q ++ r ∧ q.map lowerChar = P.map lowerChar := by
  induction P with
  | nil =>
    intro s r h
    simp [stripCI] at h
    exact ⟨[], by simp [h]⟩
  | cons p ps ih =>
    intro s r h
    cases s with
    | nil => simp [stripCI] at h
    | cons c cs =>
      unfold stripCI at h
      split at h
      · rename_i hcp
        obtain ⟨q, hq1, hq2⟩ := ih h
        exact ⟨c :: q, by simp [hq1], by simp [hq2, hcp]⟩
      · exact absurd h (by simp)

theorem lowerChar_bang {c : Char} (h : lowerChar c = '!') : c = '!' := by
  unfold lowerChar at h
  split at h <;> first | exact h | exact absurd h (by decide)

/-! ## C10 -/

theorem hasIntentDecl_of_no_i {s : Str} (h : ∀ c ∈ s, lowerChar c ≠ 'i') :
    hasIntentDecl s = false := by
  induction s with
  | nil => rfl
  | cons c cs ih =>
    have hc : stripCI kwIntent (c :: cs) = none := by
      rw [show kwIntent = 'i' :: ( "ntent".toList) from rfl]
      exact stripCI_head_ne (by simpa using h c (by simp))
    unfold hasIntentDecl
    rw [hc]
    simpa using ih (fun a ha => h a (List.mem_cons_of_mem _ ha))

/-- A marker-only line: optional spaces, the directive marker (in any
casing), optional spaces, newline. -/
def markerOnly (n1 : Nat) (M : Str) (n2 : Nat) : Str :=
  List.replicate n1 ' ' ++ M ++ List.replicate n2 ' ' ++ ['\n']

theorem markerOnly_head {M : Str} (hM : lowerStr M = serMark) :
    ∃ M', M = '!' :: M' ∧ lowerStr M' = ['$', 's', 'e', 'r'] := by
  cases M with
  | nil => simp [lowerStr, serMark] at hM
  | cons m0 M' =>
    simp only [lowerStr, List.map_cons, serMark, List.cons.injEq] at hM
    exact ⟨M', by rw [lowerChar_bang hM.1], hM.2⟩

theorem markerOnly_chars {n1 n2 : Nat} {M : Str} (hM : lowerStr M = serMark) :
    ∀ c ∈ markerOnly n1 M n2, lowerChar c ∈ (' ' :: '\n' :: serMark) := by
  intro c hc
  simp only [markerOnly, List.mem_append] at hc
  rcases hc with ((hc | hc) | hc) | hc
  · rw [List.eq_of_mem_replicate hc]; decide
  · have h2 : lowerChar c ∈ lowerStr M := List.mem_map_of_mem lowerChar hc
    rw [hM] at h2
    exact List.mem_cons_of_mem _ (List.mem_cons_of_mem _ h2)
  · rw [List.eq_of_mem_replicate hc]; decide
  · rw [List.mem_singleton.mp hc]; decide

theorem markerOnly_dropSp {n1 n2 : Nat} {M M' : Str} (hM : M = '!' :: M') :
    (markerOnly n1 M n2).dropWhile (fun c => c == ' ') =
      M ++ (List.replicate n2 ' ' ++ ['\n']) := by
  have hassoc : markerOnly n1 M n2 =
      List.replicate n1 ' ' ++ (M ++ (List.replicate n2 ' ' ++ ['\n'])) := by
    simp [markerOnly]
  rw [hassoc]
  rw [dropWhile_append_of_all (fun a ha => by rw [List.eq_of_mem_replicate ha]; rfl)]
  rw [hM]
  simp only [List.cons_append]
  exact dropWhile_cons_of_neg (by decide)

theorem markerOnly_serRest {n1 n2 : Nat} {M : Str} (hM : lowerStr M = serMark) :
    serRest (markerOnly n1 M n2) = some [] := by
  obtain ⟨M', hM', _⟩ := markerOnly_head hM
  have hchomp : chompNl (markerOnly n1 M n2) =
      List.replicate n1 ' ' ++ (M ++ List.replicate n2 ' ') := by
    unfold markerOnly chompNl
    rw [show List.replicate n1 ' ' ++ M ++ List.replicate n2 ' ' ++ ['\n'] =
          (List.replicate n1 ' ' ++ M ++ List.replicate n2 ' ') ++ ['\n'] from by simp,
        if_pos (by rw [List.getLast?_concat]), List.dropLast_concat]
    simp
  have hdrop : (List.replicate n1 ' ' ++ (M ++ List.replicate n2 ' ')).dropWhile
      (fun c => c == ' ') = M ++ List.replicate n2 ' ' := by
    rw [dropWhile_append_of_all (fun a ha => by rw [List.eq_of_mem_replicate ha]; rfl)]
    rw [hM']
    simp only [List.cons_append]
    exact dropWhile_cons_of_neg (by decide)
  have hstrip : stripCI serMark (M ++ List.replicate n2 ' ') = some (List.replicate n2 ' ') :=
    stripCI_of_lower (by rw [show serMark.map lowerChar = serMark from rfl]; exact hM) _
  have hnil : (List.replicate n2 ' ').dropWhile (fun c => c == ' ') = [] :=
    dropWhile_eq_nil_of_all (fun a ha => by rw [List.eq_of_mem_replicate ha]; rfl)
  unfold serRest
  rw [hchomp, hdrop, hstrip]
  simp [hnil]

/-- **C10**: a logical line consisting of the directive marker alone (any
casing, surrounding spaces allowed) is not an error: it matches the
directive pattern with an empty group, so no handler runs and the line is
left unchanged, yet the guard wrapper treats it as directive-derived --
`lexer` returns exactly the input state with a guard-open marker
prepended when the guard is closed (and configured), and the unchanged
state (region kept open) otherwise. -/
theorem c10_bare_marker_line (cfg : Cfg) (e : EnumFn) (st : PState) (n1 n2 : Nat) (M : Str)
    (hM : lowerStr M = serMark)
    (hline : st.line = markerOnly n1 M n2) :
    lexer cfg e false st =
      .ok (if cfg.ifdef ≠ [] ∧ st.ser = false then
             { st with line := "#ifdef ".toList ++ cfg.ifdef ++ "\n".toList ++ st.line, ser := true }
           else st) := by
  obtain ⟨M', hM', _⟩ := markerOnly_head hM
  have hdrop : (markerOnly n1 M n2).dropWhile (fun c => c == ' ')
      = M ++ (List.replicate n2 ' ' ++ ['\n']) := markerOnly_dropSp hM'
  have h1 : matchUnit st.line = none := by
    have hu : unitKw (st.line.dropWhile (fun c => c == ' ')) = none := by
      unfold unitKw
      rw [hline, hdrop, hM']
      simp only [List.cons_append]
      rw [show kwModule = 'm' :: ( "odule".toList) from rfl, stripCI_head_ne (by decide)]
      rw [show kwProgram = 'p' :: ( "rogram".toList) from rfl, stripCI_head_ne (by decide)]
    unfold matchUnit
    rw [hu]
  have h2 : matchImplicit st.line = false := by
    unfold matchImplicit
    rw [hline, hdrop, hM']
    simp only [List.cons_append]
    rw [show kwImplicit = 'i' :: ( "mplicit".toList) from rfl, stripCI_head_ne (by decide)]
  have h3 : matchEndUnit st.line = none := by
    unfold matchEndUnit
    rw [hline, hdrop, hM']
    simp only [List.cons_append]
    rw [show kwEnd = 'e' :: ( "nd".toList) from rfl, stripCI_head_ne (by decide)]
  have h4 : hasIntentDecl st.line = false := by
    rw [hline]
    refine hasIntentDecl_of_no_i (fun c hc => ?_)
    have hmem := markerOnly_chars hM c hc
    simp only [serMark, List.mem_cons, List.mem_singleton, List.not_mem_nil, or_false] at hmem
    rcases hmem with h | h | h | h | h | h | h <;> simp [h]
  have h5 : serRest st.line = some [] := by
    rw [hline]
    exact markerOnly_serRest hM
  have e1 : reModule cfg st = .ok st := by unfold reModule; rw [h1]
  have e2 : reImplicit cfg e st = st := by unfold reImplicit; rw [h2]; simp
  have e3 : reEndmodule cfg st = .ok st := by unfold reEndmodule; rw [h3]
  have e4 : reDef cfg st = st := by unfold reDef; rw [h4]; simp
  have e5 : reSer cfg st = .ok (true, st) := by unfold reSer; rw [h5]
  simp [lexer, e1, e2, e3, e4, e5, lexerChecks, guardWrap]

/-- **C10** witness: the concrete line `!$SER` with a fresh state and the
default configuration opens a guard region. -/
theorem c10_bare_marker_line_witness :
    lowerStr ( "!$SER".toList) = serMark
    ∧ ( "!$SER\n".toList : Str) = markerOnly 0 ( "!$SER".toList) 0
    ∧ lexer cfg0 idEnum false { initState with line := "!$SER\n".toList } =
        .ok (if cfg0.ifdef ≠ [] ∧ ({ initState with line := "!$SER\n".toList } : PState).ser = false then
               { ({ initState with line := "!$SER\n".toList } : PState) with
                   line := "#ifdef ".toList ++ cfg0.ifdef ++ "\n".toList ++ "!$SER\n".toList,
                   ser := true }
             else { initState with line := "!$SER\n".toList }) := by
  refine ⟨by decide, by decide, ?_⟩
  exact c10_bare_marker_line cfg0 idEnum _ 0 0 ( "!$SER".toList) (by decide) (by decide)

/-! ## C5, amended -/

theorem splitChGo_ne_nil (sep : Char) : ∀ (s cur : Str), splitChGo sep s cur ≠ [] := by
  intro s
  induction s with
  | nil => intro cur; simp [splitChGo]
  | cons c cs ih =>
    intro cur
    unfold splitChGo
    split
    · simp
    · exact ih _

/-- Conditional mode with the expression slot already filled: the parse
errors exactly when a further non-marker token occurs. -/
theorem argGo_cond_full (cfg : Cfg) (st : PState) (dir : Str) :
    ∀ (tail dirs keys values : List Str) (s : Str), s ≠ [] →
      (serArgParseGo cfg st dir tail dirs keys values true s =
          .error (exitErr cfg st dir msgIfLast)
        ↔ 1 ≤ (tail.filter (fun t => !(upperStr t == ( "IF".toList)))).length) := by
  intro tail
  induction tail with
  | nil =>
    intro dirs keys values s _
    simp [serArgParseGo]
  | cons arg rest ih =>
    intro dirs keys values s hs
    unfold serArgParseGo
    by_cases hIF : upperStr arg = "IF".toList
    · have hIF2 : upperStr arg = ['I', 'F'] := hIF
      rw [if_pos hIF]
      rw [ih dirs keys values s hs]
      simp [List.filter_cons, hIF2]
    · have hIF2 : ¬ upperStr arg = ['I', 'F'] := hIF
      rw [if_neg hIF, if_pos rfl, if_pos hs]
      simp [List.filter_cons, hIF2]

/-- Conditional mode with the expression slot empty: the parse errors
exactly when two or more non-marker tokens follow. -/
theorem argGo_cond_empty (cfg : Cfg) (st : PState) (dir : Str) :
    ∀ (tail dirs keys values : List Str), (∀ t ∈ tail, t ≠ []) →
      (serArgParseGo cfg st dir tail dirs keys values true [] =
          .error (exitErr cfg st dir msgIfLast)
        ↔ 2 ≤ (tail.filter (fun t => !(upperStr t == ( "IF".toList)))).length) := by
  intro tail
  induction tail with
  | nil =>
    intro dirs keys values _
    simp [serArgParseGo]
  | cons arg rest ih =>
    intro dirs keys values hne
    unfold serArgParseGo
    by_cases hIF : upperStr arg = "IF".toList
    · have hIF2 : upperStr arg = ['I', 'F'] := hIF
      rw [if_pos hIF]
      rw [ih dirs keys values (fun t ht => hne t (List.mem_cons_of_mem _ ht))]
      simp [List.filter_cons, hIF2]
    · have hIF2 : ¬ upperStr arg = ['I', 'F'] := hIF
      rw [if_neg hIF, if_pos rfl, if_neg (by simp)]
      rw [argGo_cond_full cfg st dir rest dirs keys values arg (hne arg (by simp))]
      simp [List.filter_cons, hIF2]

/-- Tokens before the marker that are well formed (not the marker, at
most one `=`) are consumed without error and without entering
conditional mode. -/
theorem argGo_pre (cfg : Cfg) (st : PState) (dir : Str) :
    ∀ (pre : List Str), (∀ t ∈ pre, upperStr t ≠ "IF".toList ∧ (splitEq t).length ≤ 2) →
      ∀ (tl dirs keys values : List Str),
        ∃ d' k' v', serArgParseGo cfg st dir (pre ++ tl) dirs keys values false [] =
          serArgParseGo cfg st dir tl d' k' v' false [] := by
  intro pre
  induction pre with
  | nil => exact fun _ tl dirs keys values => ⟨dirs, keys, values, rfl⟩
  | cons t ts ih =>
    intro hpre tl dirs keys values
    obtain ⟨hIF, hlen⟩ := hpre t (by simp)
    have hts := fun u hu => hpre u (List.mem_cons_of_mem _ hu)
    have hne : splitEq t ≠ [] := splitChGo_ne_nil '=' t []
    rcases hsp : splitEq t with _ | ⟨a, _ | ⟨b, _ | ⟨c, l⟩⟩⟩
    · exact absurd hsp hne
    · have hstep : serArgParseGo cfg st dir ((t :: ts) ++ tl) dirs keys values false [] =
          serArgParseGo cfg st dir (ts ++ tl) (a :: dirs) keys values false [] := by
        rw [List.cons_append]
        simp only [serArgParseGo]
        rw [if_neg hIF, if_neg (by simp), hsp]
      rw [hstep]
      exact ih hts tl (a :: dirs) keys values
    · have hstep : serArgParseGo cfg st dir ((t :: ts) ++ tl) dirs keys values false [] =
          serArgParseGo cfg st dir (ts ++ tl) dirs (a :: keys) (b :: values) false [] := by
        rw [List.cons_append]
        simp only [serArgParseGo]
        rw [if_neg hIF, if_neg (by simp), hsp]
      rw [hstep]
      exact ih hts tl dirs (a :: keys) (b :: values)
    · rw [hsp] at hlen
      simp at hlen

/-- **C5** (amended): for a directive argument list consisting of
well-formed tokens, then the reserved marker, then a tail of (non-empty)
tokens, `__ser_arg_parse` aborts with the
`'IF statement must be last argument'` error **iff** at least two tokens
of the tail are not themselves the marker — a second conditional
expression token is fatal, but additional copies of the marker itself
are silently skipped. -/
theorem c5_conditional_last_iff (cfg : Cfg) (st : PState) (kw : Str) (pre tail : List Str)
    (hpre : ∀ t ∈ pre, upperStr t ≠ "IF".toList ∧ (splitEq t).length ≤ 2)
    (htail : ∀ t ∈ tail, t ≠ []) :
    (serArgParse cfg st (kw :: (pre ++ ( "IF".toList) :: tail)) =
        .error (exitErr cfg st kw msgIfLast)
      ↔ 2 ≤ (tail.filter (fun t => !(upperStr t == ( "IF".toList)))).length) := by
  unfold serArgParse
  simp only [List.headD_cons, List.drop_succ_cons, List.drop_zero]
  obtain ⟨d', k', v', heq⟩ :=
    argGo_pre cfg st kw pre hpre (( "IF".toList) :: tail) [] [] []
  rw [heq]
  rw [show serArgParseGo cfg st kw (( "IF".toList) :: tail) d' k' v' false [] =
        serArgParseGo cfg st kw tail d' k' v' true [] from by
    simp only [serArgParseGo]
    rw [if_pos (by decide)]]
  exact argGo_cond_empty cfg st kw tail d' k' v' htail

/-- **C5** witness: `data a=b IF x y` (marker followed by the two
non-marker tokens `x y`) aborts with the conditional-clause error. -/
theorem c5_conditional_last_iff_witness :
    (∀ t ∈ [( "a=b".toList)], upperStr t ≠ "IF".toList ∧ (splitEq t).length ≤ 2)
    ∧ (∀ t ∈ [( "x".toList), ( "y".toList)], t ≠ ([] : Str))
    ∧ (serArgParse cfg0 initState
          (( "data".toList) :: ([( "a=b".toList)] ++ ( "IF".toList) :: [( "x".toList), ( "y".toList)])) =
          .error (exitErr cfg0 initState ( "data".toList) msgIfLast)
        ↔ 2 ≤ (([( "x".toList), ( "y".toList)]).filter
            (fun t => !(upperStr t == ( "IF".toList)))).length) := by
  refine ⟨by decide, by decide, ?_⟩
  exact c5_conditional_last_iff cfg0 initState ( "data".toList) [( "a=b".toList)]
    [( "x".toList), ( "y".toList)] (by decide) (by decide)

/-! ## C9 -/

/-- `__re_module` touches only the scope field. -/
theorem reModule_fields {cfg : Cfg} {st st' : PState} (h : reModule cfg st = .ok st') :
    st'.line = st.line ∧ st'.calls = st.calls ∧ st'.ser = st.ser ∧ st'.outBuf = st.outBuf ∧
    st'.linenum = st.linenum ∧ st'.implicitnoneFound = st.implicitnoneFound ∧
    st'.intentinToRemove = st.intentinToRemove ∧ st'.intentinRemoved = st.intentinRemoved := by
  unfold reModule at h
  repeat' split at h
  all_goals first
    | exact Except.noConfusion h
    | (cases h; exact ⟨rfl, rfl, rfl, rfl, rfl, rfl, rfl, rfl⟩)

/-- `__re_endmodule` touches only the scope field. -/
theorem reEndmodule_fields {cfg : Cfg} {st st' : PState} (h : reEndmodule cfg st = .ok st') :
    st'.line = st.line ∧ st'.calls = st.calls ∧ st'.ser = st.ser ∧ st'.outBuf = st.outBuf ∧
    st'.linenum = st.linenum ∧ st'.implicitnoneFound = st.implicitnoneFound ∧
    st'.intentinToRemove = st.intentinToRemove ∧ st'.intentinRemoved = st.intentinRemoved := by
  unfold reEndmodule at h
  repeat' split at h
  all_goals first
    | exact Except.noConfusion h
    | (cases h; exact ⟨rfl, rfl, rfl, rfl, rfl, rfl, rfl, rfl⟩)

theorem implicitNcalls_nil {e : EnumFn} {st : PState} (he : EnumOK e) (hc : st.calls = []) :
    implicitNcalls e st = 0 := by
  unfold implicitNcalls callsPPOf callsFSOf
  rw [hc, List.Perm.eq_nil (he [])]
  rfl

/-- With an empty registry, `__re_implicit` can only set the found flag. -/
theorem reImplicit_clean {cfg : Cfg} {e : EnumFn} {st : PState} (he : EnumOK e)
    (hc : st.calls = []) :
    reImplicit cfg e st =
      if matchImplicit st.line then { st with implicitnoneFound := true } else st := by
  unfold reImplicit
  split
  · rw [if_neg (by rw [implicitNcalls_nil he hc]; simp)]
  · rfl

/-- With no removal requests, `__re_def` is the identity. -/
theorem reDef_nil {cfg : Cfg} {st : PState} (h : st.intentinToRemove = []) :
    reDef cfg st = st := by
  have hf : reDefFields st = [] := by unfold reDefFields; rw [h]; rfl
  unfold reDef
  rw [hf]
  simp

theorem reSer_none {cfg : Cfg} {st : PState} (h : serRest st.line = none) :
    reSer cfg st = .ok (false, st) := by
  unfold reSer
  rw [h]

/-- A line that is no directive line cannot announce a continuation. -/
theorem contLineOut_of_serRest_none {l : Str} (h : serRest l = none) :
    contLineOut l = false := by
  unfold serRest at h
  unfold contLineOut
  by_cases hn : '\n' ∈ chompNl l
  · rw [if_pos hn]
  · rw [if_neg hn]
    cases hs : stripCI serMark ((chompNl l).dropWhile (fun c => c == ' ')) with
    | none => rfl
    | some r =>
      rw [hs] at h
      have h3 : (if '\n' ∈ r.dropWhile (fun c => c == ' ') then (none : Option Str)
                 else some (r.dropWhile (fun c => c == ' '))) = none := h
      by_cases hmem : '\n' ∈ r.dropWhile (fun c => c == ' ')
      · exfalso
        apply hn
        have h1 : '\n' ∈ r := (List.dropWhile_sublist _).subset hmem
        obtain ⟨q, hq, _⟩ := stripCI_consumed hs
        have h2 : '\n' ∈ (chompNl l).dropWhile (fun c => c == ' ') := by
          rw [hq]; exact List.mem_append_right _ h1
        exact (List.dropWhile_sublist _).subset h2
      · rw [if_neg hmem] at h3
        exact Option.noConfusion h3

theorem lexerChecks_ok_eq {cfg : Cfg} {final : Bool} {st6 st' : PState}
    (h : lexerChecks cfg final st6 = .ok st') : st' = st6 := by
  unfold lexerChecks at h
  repeat' split at h
  all_goals first | exact Except.noConfusion h | (cases h; rfl)

/-- Unfolding step for `lexer` once the unit recognizer has answered. -/
theorem lexer_step1 {cfg : Cfg} {e : EnumFn} {final : Bool} {st st1 : PState}
    (hm : reModule cfg st = .ok st1) :
    lexer cfg e final st =
      match reEndmodule cfg (reImplicit cfg e st1) with
      | .error er => .error er
      | .ok st3 =>
        match reSer cfg (reDef cfg st3) with
        | .error er => .error er
        | .ok (matched, st5) => lexerChecks cfg final (guardWrap cfg matched st5) := by
  unfold lexer
  rw [hm]

/-- A state with empty registry, no pending removals, closed guard and a
non-directive current line passes through `lexer` with only the scope
field and the anchor flag possibly changing. -/
theorem lexer_clean {cfg : Cfg} {e : EnumFn} {final : Bool} {st st' : PState} (he : EnumOK e)
    (hc : st.calls = []) (htr : st.intentinToRemove = []) (hser : st.ser = false)
    (hrest : serRest st.line = none) (h : lexer cfg e final st = .ok st') :
    st'.line = st.line ∧ st'.calls = [] ∧ st'.ser = false ∧ st'.outBuf = st.outBuf ∧
    st'.intentinToRemove = [] ∧ st'.intentinRemoved = st.intentinRemoved := by
  cases hm : reModule cfg st with
  | error er =>
    rw [show lexer cfg e final st = .error er from by unfold lexer; rw [hm]] at h
    exact Except.noConfusion h
  | ok st1 =>
    rw [lexer_step1 hm] at h
    obtain ⟨l1, c1, s1, o1, _, _, t1, r1⟩ := reModule_fields hm
    have hex2 : ∃ st2, reImplicit cfg e st1 = st2 ∧ st2.line = st1.line ∧
        st2.calls = st1.calls ∧ st2.ser = st1.ser ∧ st2.outBuf = st1.outBuf ∧
        st2.intentinToRemove = st1.intentinToRemove ∧ st2.intentinRemoved = st1.intentinRemoved := by
      rw [reImplicit_clean he (by rw [c1, hc])]
      by_cases hmi : matchImplicit st1.line = true
      · rw [if_pos hmi]; exact ⟨_, rfl, rfl, rfl, rfl, rfl, rfl, rfl⟩
      · rw [if_neg hmi]; exact ⟨_, rfl, rfl, rfl, rfl, rfl, rfl, rfl⟩
    obtain ⟨st2, he2, l2, c2, s2, o2, t2, r2⟩ := hex2
    rw [he2] at h
    cases hm3 : reEndmodule cfg st2 with
    | error er =>
      rw [hm3] at h
      exact Except.noConfusion (show (Except.error er : Except PErr PState) = .ok st' from h)
    | ok st3 =>
      rw [hm3] at h
      have h5 : (match reSer cfg (reDef cfg st3) with
                 | .error er => (.error er : Except PErr PState)
                 | .ok (matched, st5) => lexerChecks cfg final (guardWrap cfg matched st5)) = .ok st' := h
      obtain ⟨l3, c3, s3, o3, _, _, t3, r3⟩ := reEndmodule_fields hm3
      have hline3 : st3.line = st.line := by rw [l3, l2, l1]
      have hd : reDef cfg st3 = st3 := reDef_nil (by rw [t3, t2, t1, htr])
      rw [hd] at h5
      have hrs : reSer cfg st3 = .ok (false, st3) := reSer_none (by rw [hline3]; exact hrest)
      rw [hrs] at h5
      have hser3 : st3.ser = false := by rw [s3, s2, s1, hser]
      have h7 : lexerChecks cfg final (guardWrap cfg false st3) = .ok st' := h5
      have hgw : guardWrap cfg false st3 = st3 := by
        unfold guardWrap
        simp [hser3]
      rw [hgw] at h7
      have := lexerChecks_ok_eq h7
      subst this
      exact ⟨hline3, by rw [c3, c2, c1, hc], hser3, by rw [o3, o2, o1],
             by rw [t3, t2, t1, htr], by rw [r3, r2, r1]⟩

/-- A parser state with nothing pending and nothing collected. -/
def CleanSt (st : PState) : Prop :=
  st.line = [] ∧ st.ser = false ∧ st.calls = [] ∧ st.intentinToRemove = []

/-- One loop iteration over a non-directive raw line from a clean state:
the line passes through to the buffer unchanged. -/
theorem feedLine_clean {cfg : Cfg} {e : EnumFn} {gen : Bool} {st st' : PState} {raw : Str}
    (he : EnumOK e) (hcl : CleanSt st) (hr : serRest raw = none)
    (h : feedLine cfg e gen st raw = .ok st') :
    CleanSt st' ∧ st'.outBuf = st.outBuf ++ (if gen then raw else []) ∧
      st'.intentinRemoved = st.intentinRemoved := by
  obtain ⟨hline, hser, hc, htr⟩ := hcl
  unfold feedLine at h
  rw [hline] at h
  have h2 : feedBody cfg e gen { st with line := raw, linenum := st.linenum + 1 } = .ok st' := h
  unfold feedBody at h2
  have hnc : ¬(contLineOut ({ st with line := raw, linenum := st.linenum + 1 } : PState).line = true) := by
    simp [contLineOut_of_serRest_none hr]
  rw [if_neg hnc] at h2
  cases hl : lexer cfg e false { st with line := raw, linenum := st.linenum + 1 } with
  | error er =>
    rw [hl] at h2
    exact Except.noConfusion (show (Except.error er : Except PErr PState) = .ok st' from h2)
  | ok st2 =>
    rw [hl] at h2
    obtain ⟨l2, c2, s2, o2, t2, r2⟩ := lexer_clean he
      (show ({ st with line := raw, linenum := st.linenum + 1 } : PState).calls = [] from hc)
      (show ({ st with line := raw, linenum := st.linenum + 1 } : PState).intentinToRemove = [] from htr)
      (show ({ st with line := raw, linenum := st.linenum + 1 } : PState).ser = false from hser)
      (show serRest ({ st with line := raw, linenum := st.linenum + 1 } : PState).line = none from hr)
      hl
    cases gen with
    | true =>
      have h3 : Except.ok { st2 with outBuf := st2.outBuf ++ st2.line, line := [] } = Except.ok st' := h2
      cases h3
      exact ⟨⟨rfl, s2, c2, t2⟩, by simp [o2, l2], r2⟩
    | false =>
      have h3 : Except.ok ({ st2 with line := [] } : PState) = Except.ok st' := h2
      cases h3
      exact ⟨⟨rfl, s2, c2, t2⟩, by simp [o2], r2⟩

/-- The loop over a directive-free file from a clean state. -/
theorem feedAll_clean {cfg : Cfg} {e : EnumFn} {gen : Bool} (he : EnumOK e) :
    ∀ {lines : List Str} {st st' : PState}, CleanSt st → (∀ l ∈ lines, serRest l = none) →
      feedAll cfg e gen st lines = .ok st' →
      CleanSt st' ∧ st'.outBuf = st.outBuf ++ (if gen then lines.flatten else []) ∧
        st'.intentinRemoved = st.intentinRemoved := by
  intro lines
  induction lines with
  | nil =>
    intro st st' hcl _ h
    have h2 : Except.ok st = Except.ok st' := h
    cases h2
    exact ⟨hcl, by simp, rfl⟩
  | cons l ls ih =>
    intro st st' hcl hl h
    unfold feedAll at h
    cases hf : feedLine cfg e gen st l with
    | error er =>
      rw [hf] at h
      exact Except.noConfusion (show (Except.error er : Except PErr PState) = .ok st' from h)
    | ok stm =>
      rw [hf] at h
      have h3 : feedAll cfg e gen stm ls = .ok st' := h
      obtain ⟨hclm, hbm, hrm⟩ := feedLine_clean he hcl (hl l (by simp)) hf
      obtain ⟨hcl', hb', hr'⟩ := ih hclm (fun x hx => hl x (List.mem_cons_of_mem _ hx)) h3
      refine ⟨hcl', ?_, by rw [hr', hrm]⟩
      rw [hb', hbm]
      cases gen <;> simp

/-- Inversion of a successful `passBody`: the loop succeeded and the
final `lexer` call succeeded. -/
theorem passBody_inv {cfg : Cfg} {e : EnumFn} {gen : Bool} {lines : List Str} {st0 st' : PState}
    (h : passBody cfg e gen lines st0 = .ok st') :
    ∃ st1, feedAll cfg e gen (parseResetSt st0) lines = .ok st1 ∧ lexer cfg e true st1 = .ok st' := by
  unfold passBody at h
  cases hf : feedAll cfg e gen (parseResetSt st0) lines with
  | error er =>
    rw [hf] at h
    exact Except.noConfusion (show (Except.error er : Except PErr PState) = .ok st' from h)
  | ok st1 =>
    rw [hf] at h
    exact ⟨st1, rfl, h⟩

/-- Inversion of a successful `parse` pass: the body succeeded and the
removal-consistency check did not fire. -/
theorem parsePass_inv {cfg : Cfg} {e : EnumFn} {gen : Bool} {lines : List Str} {st0 st' : PState}
    (h : parsePass cfg e gen lines st0 = .ok st') :
    passBody cfg e gen lines st0 = .ok st' ∧
      ¬(gen = true ∧ st'.intentinToRemove.length ≠ st'.intentinRemoved.length) := by
  unfold parsePass at h
  cases hp : passBody cfg e gen lines st0 with
  | error er =>
    rw [hp] at h
    exact Except.noConfusion (show (Except.error er : Except PErr PState) = .ok st' from h)
  | ok st2 =>
    rw [hp] at h
    have h3 : (if gen = true ∧ st2.intentinToRemove.length ≠ st2.intentinRemoved.length then
                 (.error (exitErr cfg st2 []
                   ( "cannot find INTENT(IN) declaration for ".toList
                     ++ joinSep (", ".toList) (missingIntent st2))) : Except PErr PState)
               else .ok st2) = .ok st' := h
    by_cases hcond : gen = true ∧ st2.intentinToRemove.length ≠ st2.intentinRemoved.length
    · rw [if_pos hcond] at h3
      exact Except.noConfusion h3
    · rw [if_neg hcond] at h3
      cases h3
      exact ⟨rfl, hcond⟩

/-- Inversion of a successful two-pass run. -/
theorem preprocess_inv {cfg : Cfg} {e : EnumFn} {lines : List Str} {st0 st' : PState}
    (h : preprocess cfg e lines st0 = .ok st') :
    ∃ st1, parsePass cfg e false lines st0 = .ok st1 ∧ parsePass cfg e true lines st1 = .ok st' := by
  unfold preprocess at h
  cases hp : parsePass cfg e false lines st0 with
  | error er =>
    rw [hp] at h
    exact Except.noConfusion (show (Except.error er : Except PErr PState) = .ok st' from h)
  | ok st1 =>
    rw [hp] at h
    exact ⟨st1, rfl, h⟩

/-- A full pass over a directive-free file from a clean starting object. -/
theorem parsePass_clean {cfg : Cfg} {e : EnumFn} {gen : Bool} {lines : List Str}
    {st0 st' : PState} (he : EnumOK e) (hc0 : st0.calls = [])
    (ht0 : st0.intentinToRemove = []) (hr0 : st0.intentinRemoved = [])
    (hl : ∀ l ∈ lines, serRest l = none)
    (h : parsePass cfg e gen lines st0 = .ok st') :
    CleanSt st' ∧ st'.outBuf = (if gen then lines.flatten else []) ∧
      st'.intentinRemoved = [] := by
  obtain ⟨hpb, _⟩ := parsePass_inv h
  obtain ⟨stA, hf, hlx⟩ := passBody_inv hpb
  have hclA : CleanSt (parseResetSt st0) := ⟨rfl, rfl, hc0, ht0⟩
  obtain ⟨hclA', hbA, hrA⟩ := feedAll_clean he hclA hl hf
  obtain ⟨lB, cB, sB, oB, tB, rB⟩ :=
    lexer_clean he hclA'.2.2.1 hclA'.2.2.2 hclA'.2.1 (by rw [hclA'.1]; rfl) hlx
  refine ⟨⟨by rw [lB, hclA'.1], sB, cB, tB⟩, ?_, by rw [rB, hrA]; exact hr0⟩
  rw [oB, hbA]
  simp [parseResetSt]

/-- **C9**: for a file containing no directive line, the registry is
empty at the end of either pass, and an accepted two-pass run reproduces
the input byte for byte (hence no guard markers and no import block are
ever emitted). -/
theorem c9_no_directives_identity (cfg : Cfg) (e : EnumFn) (lines : List Str)
    (he : EnumOK e) (hl : ∀ l ∈ lines, serRest l = none) :
    (∀ st1, parsePass cfg e false lines initState = .ok st1 → st1.calls = [])
    ∧ (∀ st2, preprocess cfg e lines initState = .ok st2 →
        st2.calls = [] ∧ st2.outBuf = lines.flatten) := by
  constructor
  · intro st1 h1
    exact (parsePass_clean he rfl rfl rfl hl h1).1.2.2.1
  · intro st2 h2
    obtain ⟨st1, hp1, hp2⟩ := preprocess_inv h2
    obtain ⟨hcl1, _, hr1⟩ := parsePass_clean he rfl rfl rfl hl hp1
    obtain ⟨hcl2, hb2, _⟩ := parsePass_clean he hcl1.2.2.1 hcl1.2.2.2 hr1 hl hp2
    exact ⟨hcl2.2.2.1, by rw [hb2]; simp⟩

/-- **C9** witness: the one-line directive-free file `x` passes through
unchanged with an empty registry. -/
theorem c9_no_directives_identity_witness :
    EnumOK idEnum ∧ serRest ( "x\n".toList) = none
    ∧ ((stOf (preprocess cfg0 idEnum [( "x\n".toList)] initState)).calls = []
        ∧ (stOf (preprocess cfg0 idEnum [( "x\n".toList)] initState)).outBuf =
            ([( "x\n".toList)] : List Str).flatten) := by
  refine ⟨fun l => List.Perm.refl l, by decide, ?_⟩
  exact (c9_no_directives_identity cfg0 idEnum [( "x\n".toList)] (fun l => List.Perm.refl l)
    (by intro l hl; simp at hl; rw [hl]; decide)).2 _ rfl

/-! ## C8 -/

/-- Bookkeeping invariant of the two removal lists: both are duplicate
free and every name recorded as removed was requested. -/
def RInv (st : PState) : Prop :=
  st.intentinToRemove.Nodup ∧ st.intentinRemoved.Nodup ∧
    ∀ x ∈ st.intentinRemoved, x ∈ st.intentinToRemove

theorem addUniq_nodup {l : List Str} {x : Str} (h : l.Nodup) : (addUniq l x).Nodup := by
  unfold addUniq
  split
  · exact h
  · rename_i hx
    simp [List.nodup_append, h, hx]

theorem mem_addUniq_of_mem {l : List Str} {x y : Str} (h : y ∈ l) : y ∈ addUniq l x := by
  unfold addUniq
  split
  · exact h
  · exact List.mem_append_left _ h

theorem foldl_addUniq_nodup {f : Str → Str} (vs : List Str) :
    ∀ {l : List Str}, l.Nodup → (vs.foldl (fun acc v => addUniq acc (f v)) l).Nodup := by
  induction vs with
  | nil => intro l h; exact h
  | cons v vs ih => intro l h; exact ih (addUniq_nodup h)

theorem mem_foldl_addUniq {f : Str → Str} (vs : List Str) :
    ∀ {l : List Str} {y : Str}, y ∈ l → y ∈ vs.foldl (fun acc v => addUniq acc (f v)) l := by
  induction vs with
  | nil => intro l y h; exact h
  | cons v vs ih => intro l y h; exact ih (mem_addUniq_of_mem h)

theorem foldl_addCall_fields {α : Type} (g : α → Str) (l : List α) :
    ∀ st : PState, (l.foldl (fun s t => addCall s (g t)) st).intentinToRemove = st.intentinToRemove ∧
      (l.foldl (fun s t => addCall s (g t)) st).intentinRemoved = st.intentinRemoved := by
  induction l with
  | nil => intro st; exact ⟨rfl, rfl⟩
  | cons t ts ih => intro st; exact ih (addCall st (g t))

theorem rinv_congr {st st' : PState} (h1 : st'.intentinToRemove = st.intentinToRemove)
    (h2 : st'.intentinRemoved = st.intentinRemoved) (hinv : RInv st) : RInv st' := by
  unfold RInv at hinv ⊢
  rw [h1, h2]
  exact hinv

/-- Every directive handler keeps the removal bookkeeping invariant. -/
theorem serInit_rinv {cfg : Cfg} {st st' : PState} {args : List Str} (hinv : RInv st)
    (h : serInit cfg st args = .ok st') : RInv st' := by
  unfold serInit at h
  repeat' split at h
  all_goals first | exact Except.noConfusion h | (cases h; exact ⟨hinv.1, hinv.2.1, hinv.2.2⟩)

theorem serOption_rinv {cfg : Cfg} {st st' : PState} {args : List Str} (hinv : RInv st)
    (h : serOption cfg st args = .ok st') : RInv st' := by
  unfold serOption at h
  repeat' split at h
  all_goals first | exact Except.noConfusion h | (cases h; exact ⟨hinv.1, hinv.2.1, hinv.2.2⟩)

theorem serMetainfo_rinv {cfg : Cfg} {st st' : PState} {args : List Str} (hinv : RInv st)
    (h : serMetainfo cfg st args = .ok st') : RInv st' := by
  unfold serMetainfo at h
  repeat' split at h
  all_goals first | exact Except.noConfusion h | (cases h; exact ⟨hinv.1, hinv.2.1, hinv.2.2⟩)

theorem serVerbatim_rinv {cfg : Cfg} {st st' : PState} {args : List Str} (hinv : RInv st)
    (h : serVerbatim cfg st args = .ok st') : RInv st' := by
  unfold serVerbatim at h
  cases h
  exact ⟨hinv.1, hinv.2.1, hinv.2.2⟩

theorem serRegister_rinv {cfg : Cfg} {st st' : PState} {args : List Str} (hinv : RInv st)
    (h : serRegister cfg st args = .ok st') : RInv st' := by
  unfold serRegister at h
  repeat' split at h
  all_goals first | exact Except.noConfusion h | (cases h; exact ⟨hinv.1, hinv.2.1, hinv.2.2⟩)

theorem serRegistertracers_rinv {cfg : Cfg} {st st' : PState} {args : List Str} (hinv : RInv st)
    (h : serRegistertracers cfg st args = .ok st') : RInv st' := by
  unfold serRegistertracers at h
  cases h
  exact ⟨hinv.1, hinv.2.1, hinv.2.2⟩

theorem serZero_rinv {cfg : Cfg} {st st' : PState} {args : List Str} (hinv : RInv st)
    (h : serZero cfg st args = .ok st') : RInv st' := by
  unfold serZero at h
  repeat' split at h
  all_goals first | exact Except.noConfusion h | (cases h; exact ⟨hinv.1, hinv.2.1, hinv.2.2⟩)

theorem serSavepoint_rinv {cfg : Cfg} {st st' : PState} {args : List Str} (hinv : RInv st)
    (h : serSavepoint cfg st args = .ok st') : RInv st' := by
  unfold serSavepoint at h
  repeat' split at h
  all_goals first | exact Except.noConfusion h | (cases h; exact ⟨hinv.1, hinv.2.1, hinv.2.2⟩)

theorem serMode_rinv {cfg : Cfg} {st st' : PState} {args : List Str} (hinv : RInv st)
    (h : serMode cfg st args = .ok st') : RInv st' := by
  unfold serMode at h
  repeat' split at h
  all_goals first | exact Except.noConfusion h | (cases h; exact ⟨hinv.1, hinv.2.1, hinv.2.2⟩)

theorem serData_rinv {cfg : Cfg} {st st' : PState} {args : List Str} (hinv : RInv st)
    (h : serData cfg st args = .ok st') : RInv st' := by
  unfold serData at h
  repeat' split at h
  all_goals first
    | exact Except.noConfusion h
    | (cases h; exact ⟨hinv.1, hinv.2.1, hinv.2.2⟩)
    | (cases h;
       exact ⟨foldl_addUniq_nodup _ hinv.1, hinv.2.1,
              fun x hx => mem_foldl_addUniq _ (hinv.2.2 x hx)⟩)

theorem serTracer_rinv {cfg : Cfg} {st st' : PState} {args : List Str} (hinv : RInv st)
    (h : serTracer cfg st args = .ok st') : RInv st' := by
  unfold serTracer at h
  repeat' split at h
  all_goals first
    | exact Except.noConfusion h
    | (cases h;
       exact rinv_congr ((foldl_addCall_fields _ _ _).1) ((foldl_addCall_fields _ _ _).2) hinv)

theorem serCleanup_rinv {cfg : Cfg} {st st' : PState} {args : List Str} (hinv : RInv st)
    (h : serCleanup cfg st args = .ok st') : RInv st' := by
  unfold serCleanup at h
  cases h
  exact ⟨hinv.1, hinv.2.1, hinv.2.2⟩

theorem serOn_rinv {cfg : Cfg} {st st' : PState} {args : List Str} (hinv : RInv st)
    (h : serOn cfg st args = .ok st') : RInv st' := by
  unfold serOn at h
  cases h
  exact ⟨hinv.1, hinv.2.1, hinv.2.2⟩

theorem serOff_rinv {cfg : Cfg} {st st' : PState} {args : List Str} (hinv : RInv st)
    (h : serOff cfg st args = .ok st') : RInv st' := by
  unfold serOff at h
  cases h
  exact ⟨hinv.1, hinv.2.1, hinv.2.2⟩

theorem dispatchKw_rinv {cfg : Cfg} {st st' : PState} {args : List Str} {u : Str}
    (hinv : RInv st) (h : dispatchKw cfg st args u = .ok st') : RInv st' := by
  unfold dispatchKw at h
  by_cases c0 : u ∈ langInit
  · rw [if_pos c0] at h; exact serInit_rinv hinv h
  · rw [if_neg c0] at h
    by_cases c1 : u ∈ langOption
    · rw [if_pos c1] at h; exact serOption_rinv hinv h
    · rw [if_neg c1] at h
      by_cases c2 : u ∈ langMetainfo
      · rw [if_pos c2] at h; exact serMetainfo_rinv hinv h
      · rw [if_neg c2] at h
        by_cases c3 : u ∈ langVerbatim
        · rw [if_pos c3] at h; exact serVerbatim_rinv hinv h
        · rw [if_neg c3] at h
          by_cases c4 : u ∈ langRegister
          · rw [if_pos c4] at h; exact serRegister_rinv hinv h
          · rw [if_neg c4] at h
            by_cases c5 : u ∈ langSavepoint
            · rw [if_pos c5] at h; exact serSavepoint_rinv hinv h
            · rw [if_neg c5] at h
              by_cases c6 : u ∈ langZero
              · rw [if_pos c6] at h; exact serZero_rinv hinv h
              · rw [if_neg c6] at h
                by_cases c7 : u ∈ langData
                · rw [if_pos c7] at h; exact serData_rinv hinv h
                · rw [if_neg c7] at h
                  by_cases c8 : u ∈ langTracer
                  · rw [if_pos c8] at h; exact serTracer_rinv hinv h
                  · rw [if_neg c8] at h
                    by_cases c9 : u ∈ langRegistertracers
                    · rw [if_pos c9] at h; exact serRegistertracers_rinv hinv h
                    · rw [if_neg c9] at h
                      by_cases c10 : u ∈ langCleanup
                      · rw [if_pos c10] at h; exact serCleanup_rinv hinv h
                      · rw [if_neg c10] at h
                        by_cases c11 : u ∈ langOn
                        · rw [if_pos c11] at h; exact serOn_rinv hinv h
                        · rw [if_neg c11] at h
                          by_cases c12 : u ∈ langOff
                          · rw [if_pos c12] at h; exact serOff_rinv hinv h
                          · rw [if_neg c12] at h
                            by_cases c13 : u ∈ langMode
                            · rw [if_pos c13] at h; exact serMode_rinv hinv h
                            · rw [if_neg c13] at h
                              exact Except.noConfusion h

theorem dispatchSer_rinv {cfg : Cfg} {st st' : PState} {g : Str} (hinv : RInv st)
    (h : dispatchSer cfg st g = .ok st') : RInv st' := by
  unfold dispatchSer at h
  cases htok : tokenize g with
  | nil =>
    rw [htok] at h
    exact Except.noConfusion (show (Except.error PErr.indexError : Except PErr PState) = .ok st' from h)
  | cons a0 rest =>
    rw [htok] at h
    exact dispatchKw_rinv hinv (show dispatchKw cfg st (a0 :: rest) (upperStr a0) = .ok st' from h)

/-- `__re_ser` keeps the removal bookkeeping invariant. -/
theorem reSer_rinv {cfg : Cfg} {st st' : PState} {m : Bool} (hinv : RInv st)
    (h : reSer cfg st = .ok (m, st')) : RInv st' := by
  unfold reSer at h
  cases hsr : serRest st.line with
  | none =>
    rw [hsr] at h
    have h2 : (Except.ok (false, st) : Except PErr (Bool × PState)) = .ok (m, st') := h
    simp only [Except.ok.injEq, Prod.mk.injEq] at h2
    exact h2.2 ▸ hinv
  | some g =>
    rw [hsr] at h
    cases g with
    | nil =>
      have h2 : (Except.ok (true, st) : Except PErr (Bool × PState)) = .ok (m, st') := h
      simp only [Except.ok.injEq, Prod.mk.injEq] at h2
      exact h2.2 ▸ hinv
    | cons c gs =>
      have h2 : (match dispatchSer cfg st (c :: gs) with
                 | .error e => (.error e : Except PErr (Bool × PState))
                 | .ok stX => .ok (true, stX)) = .ok (m, st') := h
      cases hds : dispatchSer cfg st (c :: gs) with
      | error e2 =>
        rw [hds] at h2
        exact Except.noConfusion (show (Except.error e2 : Except PErr (Bool × PState)) = .ok (m, st') from h2)
      | ok stX =>
        rw [hds] at h2
        have h3 : (Except.ok (true, stX) : Except PErr (Bool × PState)) = .ok (m, st') := h2
        simp only [Except.ok.injEq, Prod.mk.injEq] at h3
        exact h3.2 ▸ dispatchSer_rinv hinv hds

/-- `__re_def` keeps the removal bookkeeping invariant: it extends the
found list only with requested names not already recorded. -/
theorem reDef_rinv {cfg : Cfg} {st : PState} (hinv : RInv st) : RInv (reDef cfg st) := by
  have hsub : ∀ x ∈ (reDefFields st).filter (fun x => !(st.intentinRemoved.contains x)),
      x ∈ st.intentinToRemove := by
    intro x hx
    exact List.mem_of_mem_filter (List.mem_of_mem_filter hx)
  have hnd : ((reDefFields st).filter (fun x => !(st.intentinRemoved.contains x))).Nodup :=
    List.Nodup.filter _ (List.Nodup.filter _ hinv.1)
  have hdisj : st.intentinRemoved.Disjoint
      ((reDefFields st).filter (fun x => !(st.intentinRemoved.contains x))) := by
    intro a ha hb
    have hpb := List.of_mem_filter hb
    simp at hpb
    exact hpb ha
  have hrem : (st.intentinRemoved
      ++ (reDefFields st).filter (fun x => !(st.intentinRemoved.contains x))).Nodup :=
    hinv.2.1.append hnd hdisj
  have hsub2 : ∀ x ∈ st.intentinRemoved
      ++ (reDefFields st).filter (fun x => !(st.intentinRemoved.contains x)),
      x ∈ st.intentinToRemove := by
    intro x hx
    rcases List.mem_append.mp hx with h1 | h2
    · exact hinv.2.2 x h1
    · exact hsub x h2
  unfold reDef
  split
  · split
    · exact ⟨hinv.1, hrem, hsub2⟩
    · exact ⟨hinv.1, hrem, hsub2⟩
  · exact hinv

theorem reImplicit_fields (cfg : Cfg) (e : EnumFn) (st : PState) :
    (reImplicit cfg e st).intentinToRemove = st.intentinToRemove ∧
    (reImplicit cfg e st).intentinRemoved = st.intentinRemoved := by
  unfold reImplicit
  repeat' split
  all_goals exact ⟨rfl, rfl⟩

/-- One `lexer` step keeps the removal bookkeeping invariant. -/
theorem lexer_rinv {cfg : Cfg} {e : EnumFn} {final : Bool} {st st' : PState}
    (hinv : RInv st) (h : lexer cfg e final st = .ok st') : RInv st' := by
  cases hm : reModule cfg st with
  | error er =>
    rw [show lexer cfg e final st = .error er from by unfold lexer; rw [hm]] at h
    exact Except.noConfusion h
  | ok st1 =>
    rw [lexer_step1 hm] at h
    obtain ⟨_, _, _, _, _, _, t1, r1⟩ := reModule_fields hm
    have hinv1 : RInv st1 := rinv_congr t1 r1 hinv
    have hinv2 : RInv (reImplicit cfg e st1) :=
      rinv_congr (reImplicit_fields cfg e st1).1 (reImplicit_fields cfg e st1).2 hinv1
    cases hm3 : reEndmodule cfg (reImplicit cfg e st1) with
    | error er =>
      rw [hm3] at h
      exact Except.noConfusion (show (Except.error er : Except PErr PState) = .ok st' from h)
    | ok st3 =>
      rw [hm3] at h
      obtain ⟨_, _, _, _, _, _, t3, r3⟩ := reEndmodule_fields hm3
      have hinv3 : RInv st3 := rinv_congr t3 r3 hinv2
      have hinv4 : RInv (reDef cfg st3) := reDef_rinv hinv3
      have h5 : (match reSer cfg (reDef cfg st3) with
                 | .error er => (.error er : Except PErr PState)
                 | .ok (matched, st5) => lexerChecks cfg final (guardWrap cfg matched st5)) = .ok st' := h
      cases hrs : reSer cfg (reDef cfg st3) with
      | error er =>
        rw [hrs] at h5
        exact Except.noConfusion (show (Except.error er : Except PErr PState) = .ok st' from h5)
      | ok pr =>
        obtain ⟨m, st5⟩ := pr
        rw [hrs] at h5
        have hinv5 : RInv st5 := reSer_rinv hinv4 hrs
        have h7 : lexerChecks cfg final (guardWrap cfg m st5) = .ok st' := h5
        have hst := lexerChecks_ok_eq h7
        subst hst
        have hgfields : (guardWrap cfg m st5).intentinToRemove = st5.intentinToRemove ∧
            (guardWrap cfg m st5).intentinRemoved = st5.intentinRemoved := by
          unfold guardWrap
          repeat' split
          all_goals exact ⟨rfl, rfl⟩
        exact rinv_congr hgfields.1 hgfields.2 hinv5

theorem feedBody_rinv {cfg : Cfg} {e : EnumFn} {gen : Bool} {st1 st' : PState}
    (hinv : RInv st1) (h : feedBody cfg e gen st1 = .ok st') : RInv st' := by
  unfold feedBody at h
  by_cases hco : contLineOut st1.line = true
  · rw [if_pos hco] at h
    have h2 : Except.ok { st1 with line := chopCont st1.line } = Except.ok st' := h
    cases h2
    exact hinv
  · rw [if_neg hco] at h
    cases hl : lexer cfg e false st1 with
    | error er =>
      rw [hl] at h
      exact Except.noConfusion (show (Except.error er : Except PErr PState) = .ok st' from h)
    | ok st2 =>
      rw [hl] at h
      have hinv2 : RInv st2 := lexer_rinv hinv hl
      cases gen with
      | true =>
        have h3 : Except.ok { st2 with outBuf := st2.outBuf ++ st2.line, line := [] } = Except.ok st' := h
        cases h3
        exact hinv2
      | false =>
        have h3 : Except.ok ({ st2 with line := [] } : PState) = Except.ok st' := h
        cases h3
        exact hinv2

theorem feedLine_rinv {cfg : Cfg} {e : EnumFn} {gen : Bool} {st st' : PState} {raw : Str}
    (hinv : RInv st) (h : feedLine cfg e gen st raw = .ok st') : RInv st' := by
  unfold feedLine at h
  by_cases hne : st.line ≠ []
  · rw [if_pos hne] at h
    by_cases hci : contLineIn raw = true
    · rw [if_pos hci] at h
      refine feedBody_rinv ?_
        (show feedBody cfg e gen { st with line := st.line ++ contLineSub raw, linenum := st.linenum + 1 } = .ok st' from h)
      exact ⟨hinv.1, hinv.2.1, hinv.2.2⟩
    · rw [if_neg hci] at h
      exact Except.noConfusion
        (show Except.error (exitErr cfg st [] ( "Incorrect line continuation encountered".toList)) = Except.ok st' from h)
  · rw [if_neg hne] at h
    refine feedBody_rinv ?_
      (show feedBody cfg e gen { st with line := st.line ++ raw, linenum := st.linenum + 1 } = .ok st' from h)
    exact ⟨hinv.1, hinv.2.1, hinv.2.2⟩

theorem feedAll_rinv {cfg : Cfg} {e : EnumFn} {gen : Bool} :
    ∀ {lines : List Str} {st st' : PState}, RInv st →
      feedAll cfg e gen st lines = .ok st' → RInv st' := by
  intro lines
  induction lines with
  | nil =>
    intro st st' hinv h
    have h2 : Except.ok st = Except.ok st' := h
    cases h2
    exact hinv
  | cons l ls ih =>
    intro st st' hinv h
    unfold feedAll at h
    cases hf : feedLine cfg e gen st l with
    | error er =>
      rw [hf] at h
      exact Except.noConfusion (show (Except.error er : Except PErr PState) = .ok st' from h)
    | ok stm =>
      rw [hf] at h
      exact ih (feedLine_rinv hinv hf) (show feedAll cfg e gen stm ls = .ok st' from h)

theorem passBody_rinv {cfg : Cfg} {e : EnumFn} {gen : Bool} {lines : List Str} {st0 st' : PState}
    (hinv : RInv st0) (h : passBody cfg e gen lines st0 = .ok st') : RInv st' := by
  obtain ⟨st1, hf, hlx⟩ := passBody_inv h
  exact lexer_rinv (feedAll_rinv (show RInv (parseResetSt st0) from hinv) hf) hlx

/-- When the request list is exhausted by the found list, every
requested name was found. -/
theorem subset_of_missing_nil {st : PState} (hm : missingIntent st = []) :
    ∀ x ∈ st.intentinToRemove, x ∈ st.intentinRemoved := by
  intro x hx
  by_contra hnx
  have hmem : x ∈ missingIntent st := by
    unfold missingIntent
    refine List.mem_filter.mpr ⟨hx, ?_⟩
    simp [hnx]
  rw [hm] at hmem
  exact absurd hmem (List.not_mem_nil x)

/-- Under the bookkeeping invariant, the length test run by `parse` is
equivalent to the existence of a missing name. -/
theorem missing_iff {st : PState} (hinv : RInv st) :
    st.intentinToRemove.length ≠ st.intentinRemoved.length ↔ missingIntent st ≠ [] := by
  constructor
  · intro hne hmiss
    apply hne
    have hsub := subset_of_missing_nil hmiss
    have h1 : st.intentinToRemove.toFinset = st.intentinRemoved.toFinset := by
      apply Finset.Subset.antisymm
      · intro a ha
        rw [List.mem_toFinset] at ha ⊢
        exact hsub a ha
      · intro a ha
        rw [List.mem_toFinset] at ha ⊢
        exact hinv.2.2 a ha
    calc st.intentinToRemove.length
        = st.intentinToRemove.toFinset.card := (List.toFinset_card_of_nodup hinv.1).symm
      _ = st.intentinRemoved.toFinset.card := by rw [h1]
      _ = st.intentinRemoved.length := List.toFinset_card_of_nodup hinv.2.1
  · intro hne hlen
    obtain ⟨x, hx⟩ := List.exists_mem_of_ne_nil _ hne
    have hx1 : x ∈ st.intentinToRemove := List.mem_of_mem_filter hx
    have hx2 : x ∉ st.intentinRemoved := by
      have hpb := List.of_mem_filter hx
      simp at hpb
      exact hpb
    have hsubF : st.intentinRemoved.toFinset ⊆ st.intentinToRemove.toFinset := by
      intro a ha
      rw [List.mem_toFinset] at ha ⊢
      exact hinv.2.2 a ha
    have hcard : st.intentinToRemove.toFinset.card ≤ st.intentinRemoved.toFinset.card := by
      rw [List.toFinset_card_of_nodup hinv.1, List.toFinset_card_of_nodup hinv.2.1, hlen]
    have heqF : st.intentinRemoved.toFinset = st.intentinToRemove.toFinset :=
      Finset.eq_of_subset_of_card_le hsubF hcard
    have hxF : x ∈ st.intentinRemoved.toFinset := by
      rw [heqF, List.mem_toFinset]
      exact hx1
    rw [List.mem_toFinset] at hxF
    exact hx2 hxF

/-- **C8**: let the generation pass run to its end-of-pass state.  If
every requested removal name was found, the pass is accepted and the
request list is contained in the found list; otherwise the pass aborts
with the consistency error whose message lists exactly the missing
names (the requested names not found). -/
theorem c8_removal_consistency (cfg : Cfg) (e : EnumFn) (lines : List Str) (st2 : PState)
    (h : passBody cfg e true lines initState = .ok st2) :
    (missingIntent st2 = [] →
      parsePass cfg e true lines initState = .ok st2
        ∧ ∀ x ∈ st2.intentinToRemove, x ∈ st2.intentinRemoved)
    ∧ (missingIntent st2 ≠ [] →
      parsePass cfg e true lines initState =
        .error (exitErr cfg st2 [] ( "cannot find INTENT(IN) declaration for ".toList
          ++ joinSep (", ".toList) (missingIntent st2)))) := by
  have hinv0 : RInv initState :=
    ⟨List.nodup_nil, List.nodup_nil, fun x hx => absurd hx (List.not_mem_nil x)⟩
  have hinv2 : RInv st2 := passBody_rinv hinv0 h
  have hiff := missing_iff hinv2
  have hpp : parsePass cfg e true lines initState =
      (if true = true ∧ st2.intentinToRemove.length ≠ st2.intentinRemoved.length then
         (.error (exitErr cfg st2 []
           ( "cannot find INTENT(IN) declaration for ".toList
             ++ joinSep (", ".toList) (missingIntent st2))) : Except PErr PState)
       else .ok st2) := by
    unfold parsePass
    rw [h]
  constructor
  · intro hm
    refine ⟨?_, subset_of_missing_nil hm⟩
    rw [hpp, if_neg (fun hc => (hiff.mp hc.2) hm)]
  · intro hm
    rw [hpp, if_pos ⟨rfl, hiff.mpr hm⟩]

def fileC8 : List Str := [ "!$SER DATA removeintentin u=u\n".toList, "implicit none\n".toList]

/-- **C8** witness: a removal request for `u` with no matching
declaration anywhere aborts the generation pass with the consistency
error naming exactly `u`. -/
theorem c8_removal_consistency_witness :
    missingIntent (stOf (passBody cfg0 idEnum true fileC8 initState)) ≠ []
    ∧ parsePass cfg0 idEnum true fileC8 initState =
        .error (exitErr cfg0 (stOf (passBody cfg0 idEnum true fileC8 initState)) []
          ( "cannot find INTENT(IN) declaration for ".toList
            ++ joinSep (", ".toList) (missingIntent (stOf (passBody cfg0 idEnum true fileC8 initState))))) := by
  refine ⟨by decide, ?_⟩
  exact (c8_removal_consistency cfg0 idEnum fileC8
    (stOf (passBody cfg0 idEnum true fileC8 initState)) rfl).2 (by decide)

/-! ## C3 -/

/-- The shape of a directive line announcing a continuation: optional
indentation, the marker, one blank, a piece, then the trailing
continuation marker. -/
def contSplit1 (sp A : Str) : Str := sp ++ serMark ++ (' ' :: A) ++ [' ', '&', '\n']

/-- A middle physical line of a continued directive. -/
def contSplitN (sp B : Str) : Str := sp ++ contMark ++ (' ' :: B) ++ [' ', '&', '\n']

/-- The last physical line of a continued directive. -/
def contSplitLast (sp C : Str) : Str := sp ++ contMark ++ (' ' :: C) ++ ['\n']

/-- The same directive written on one physical line. -/
def contOneLine (sp A B C : Str) : Str :=
  sp ++ serMark ++ (' ' :: A) ++ (' ' :: B) ++ (' ' :: C) ++ ['\n']

/-- A well-formed directive piece: no embedded newline, no leading
blank, and a non-whitespace final character. -/
def goodPiece (X : Str) : Prop :=
  '\n' ∉ X ∧ (∃ x xs, X = x :: xs ∧ (x == ' ') = false)
    ∧ (∃ Y c, X = Y ++ [c] ∧ isWS c = false)

theorem chompNl_shape {U : Str} : chompNl (U ++ [' ', '&', '\n']) = U ++ [' ', '&'] := by
  unfold chompNl
  rw [show U ++ [' ', '&', '\n'] = (U ++ [' ', '&']) ++ ['\n'] from by simp]
  rw [if_pos (by simp), List.dropLast_concat]

theorem rstripSp_amp {U : Str} : rstripSp (U ++ [' ', '&']) = U ++ [' ', '&'] := by
  unfold rstripSp
  rw [show (U ++ [' ', '&']).reverse = '&' :: ' ' :: U.reverse from by simp]
  rw [dropWhile_cons_of_neg (by decide)]
  simp

theorem rstripSp_concat_space {X : Str} {c : Char} (h : (c == ' ') = false) :
    rstripSp ((X ++ [c]) ++ [' ']) = X ++ [c] := by
  unfold rstripSp
  rw [show ((X ++ [c]) ++ [' ']).reverse = ' ' :: c :: X.reverse from by simp]
  rw [show List.dropWhile (fun x => x == ' ') (' ' :: c :: X.reverse)
        = List.dropWhile (fun x => x == ' ') (c :: X.reverse) from by simp [List.dropWhile_cons]]
  rw [show List.dropWhile (fun x => x == ' ') (c :: X.reverse) = c :: X.reverse
        from dropWhile_cons_of_neg h]
  simp

theorem pyRstrip_concat_nl {U : Str} {c : Char} (hc : isWS c = false) :
    pyRstrip ((U ++ [c]) ++ ['\n']) = U ++ [c] := by
  unfold pyRstrip
  rw [show ((U ++ [c]) ++ ['\n']).reverse = '\n' :: c :: U.reverse from by simp]
  rw [show List.dropWhile isWS ('\n' :: c :: U.reverse) = List.dropWhile isWS (c :: U.reverse)
        from by simp [List.dropWhile_cons, isWS]]
  rw [show List.dropWhile isWS (c :: U.reverse) = c :: U.reverse from dropWhile_cons_of_neg hc]
  simp

theorem isWS_false_space {c : Char} (hc : isWS c = false) : (c == ' ') = false := by
  simp [isWS] at hc
  simp [hc.1]

theorem dropSp_bang {sp : Str} (hsp : ∀ c ∈ sp, c = ' ') (W : Str) :
    (sp ++ ('!' :: W)).dropWhile (fun c => c == ' ') = '!' :: W := by
  rw [dropWhile_append_of_all (fun c hc => by rw [hsp c hc]; rfl)]
  exact dropWhile_cons_of_neg (by decide)

theorem chopBody_shape {V : Str} {c : Char} (hc2 : (c == ' ') = false) :
    chopBody ((V ++ [c]) ++ [' ', '&']) = V ++ [c] := by
  unfold chopBody
  rw [rstripSp_amp]
  rw [show ((V ++ [c]) ++ [' ', '&']).reverse = '&' :: ' ' :: (V ++ [c]).reverse from by simp]
  show rstripSp (' ' :: (V ++ [c]).reverse).reverse = V ++ [c]
  rw [show (' ' :: (V ++ [c]).reverse).reverse = (V ++ [c]) ++ [' '] from by simp]
  exact rstripSp_concat_space hc2

/-- A first or merged physical line of the continued shape announces a
continuation. -/
theorem contLineOut_split {sp X : Str} (hsp : ∀ c ∈ sp, c = ' ') (hnl : '\n' ∉ X) :
    contLineOut (sp ++ serMark ++ (' ' :: X) ++ [' ', '&', '\n']) = true := by
  have hnotin : '\n' ∉ (sp ++ serMark ++ (' ' :: X)) ++ [' ', '&'] := by
    intro hm
    rcases List.mem_append.mp hm with h1 | h2
    · rcases List.mem_append.mp h1 with h3 | h4
      · rcases List.mem_append.mp h3 with h5 | h6
        · exact absurd (hsp _ h5) (by decide)
        · exact absurd h6 (by decide)
      · rcases List.mem_cons.mp h4 with h5 | h6
        · exact absurd h5 (by decide)
        · exact hnl h6
    · exact absurd h2 (by decide)
  unfold contLineOut
  rw [chompNl_shape]
  rw [if_neg hnotin]
  rw [rstripSp_amp]
  rw [show ((sp ++ serMark ++ (' ' :: X)) ++ [' ', '&']).reverse
        = '&' :: ' ' :: (sp ++ serMark ++ (' ' :: X)).reverse from by simp]
  rw [show (sp ++ serMark ++ (' ' :: X)) ++ [' ', '&']
        = sp ++ ('!' :: (['$', 's', 'e', 'r'] ++ ((' ' :: X) ++ [' ', '&']))) from by simp [serMark]]
  rw [dropSp_bang hsp]
  rw [show stripCI serMark ('!' :: (['$', 's', 'e', 'r'] ++ ((' ' :: X) ++ [' ', '&'])))
        = some ((' ' :: X) ++ [' ', '&']) from stripCI_of_lower rfl _]
  rfl

/-- Chopping the continued shape yields indentation, marker, blank and
the piece, with the trailing continuation marker removed. -/
theorem chopCont_split {sp X : Str} (hX : ∃ Y c, X = Y ++ [c] ∧ isWS c = false) :
    chopCont (sp ++ serMark ++ (' ' :: X) ++ [' ', '&', '\n']) = sp ++ serMark ++ (' ' :: X) := by
  obtain ⟨Y, c, hXe, hc⟩ := hX
  unfold chopCont
  rw [if_pos (show (sp ++ serMark ++ (' ' :: X) ++ [' ', '&', '\n']).getLast? = some '\n' from by
    rw [show sp ++ serMark ++ (' ' :: X) ++ [' ', '&', '\n']
          = (sp ++ serMark ++ (' ' :: X) ++ [' ', '&']) ++ ['\n'] from by simp]
    exact List.getLast?_concat _)]
  rw [show (sp ++ serMark ++ (' ' :: X) ++ [' ', '&', '\n']).dropLast
        = (sp ++ serMark ++ (' ' :: X)) ++ [' ', '&'] from by
    rw [show sp ++ serMark ++ (' ' :: X) ++ [' ', '&', '\n']
          = ((sp ++ serMark ++ (' ' :: X)) ++ [' ', '&']) ++ ['\n'] from by simp]
    exact List.dropLast_concat]
  rw [hXe]
  rw [show (sp ++ serMark ++ (' ' :: (Y ++ [c]))) ++ [' ', '&']
        = ((sp ++ serMark ++ (' ' :: Y)) ++ [c]) ++ [' ', '&'] from by simp]
  rw [chopBody_shape (isWS_false_space hc)]
  rw [pyRstrip_concat_nl hc]
  simp

/-- A physical line starting with the continuation prefix is accepted as
a continuation. -/
theorem contLineIn_split {sp R : Str} (hsp : ∀ c ∈ sp, c = ' ') :
    contLineIn (sp ++ contMark ++ (' ' :: R)) = true := by
  unfold contLineIn
  rw [show sp ++ contMark ++ (' ' :: R)
        = sp ++ ('!' :: (['$', 's', 'e', 'r', '&'] ++ (' ' :: R))) from by simp [contMark, serMark]]
  rw [dropSp_bang hsp]
  rw [show stripCI contMark ('!' :: (['$', 's', 'e', 'r', '&'] ++ (' ' :: R)))
        = some (' ' :: R) from stripCI_of_lower rfl _]
  rfl

theorem stripPre_self_append (P r : Str) : stripPre P (P ++ r) = some r := by
  induction P with
  | nil => rfl
  | cons p ps ih =>
    simp only [List.cons_append]
    unfold stripPre
    rw [if_pos rfl]
    exact ih

/-- Substituting the (lowercase-spelled) continuation prefix leaves one
blank and the rest of the physical line. -/
theorem contLineSub_split {sp R : Str} (hsp : ∀ c ∈ sp, c = ' ') {x : Char} {xs : Str}
    (hR : R = x :: xs) (hx : (x == ' ') = false) :
    contLineSub (sp ++ contMark ++ (' ' :: R)) = ' ' :: R := by
  unfold contLineSub
  rw [show sp ++ contMark ++ (' ' :: R)
        = sp ++ ('!' :: (['$', 's', 'e', 'r', '&'] ++ (' ' :: R))) from by simp [contMark, serMark]]
  rw [dropSp_bang hsp]
  rw [show stripPre contMark ('!' :: (['$', 's', 'e', 'r', '&'] ++ (' ' :: R)))
        = some (' ' :: R) from stripPre_self_append contMark _]
  show ' ' :: List.dropWhile (fun c => c == ' ') (' ' :: R) = ' ' :: R
  rw [hR]
  rw [show List.dropWhile (fun c => c == ' ') (' ' :: x :: xs)
        = List.dropWhile (fun c => c == ' ') (x :: xs) from by simp [List.dropWhile_cons]]
  rw [show List.dropWhile (fun c => c == ' ') (x :: xs) = x :: xs from dropWhile_cons_of_neg hx]

/-- **C3** (amended): a directive split over three physical lines whose
continuation prefixes are written in lowercase (`!$ser&`, the one
spelling the case-sensitive substitution strips) is processed exactly
like the directive written on one physical line: after the two extra
physical lines are absorbed (advancing only the line counter), the same
logical line is handed to the same evaluation step, so the parse result
and all generated output coincide.  The original universal claim is
false for uppercase prefixes (see the counterexample): the recognizer
is case-insensitive but the stripping substitution is not. -/
theorem c3_continuation_equiv (cfg : Cfg) (e : EnumFn) (gen : Bool) (st : PState)
    (sp A B C : Str) (rest : List Str)
    (hsp : ∀ c ∈ sp, c = ' ') (hA : goodPiece A) (hB : goodPiece B) (hC : goodPiece C)
    (hline : st.line = []) :
    feedAll cfg e gen st (contSplit1 sp A :: contSplitN sp B :: contSplitLast sp C :: rest)
      = feedAll cfg e gen { st with linenum := st.linenum + 2 } (contOneLine sp A B C :: rest) := by
  obtain ⟨hAnl, _, hAlast⟩ := hA
  obtain ⟨hBnl, ⟨xb, xbs, hBe, hxb⟩, ⟨Yb, cb, hBe2, hcb⟩⟩ := hB
  obtain ⟨_, ⟨xc, xcs, hCe, hxc⟩, _⟩ := hC
  have hf1 : feedLine cfg e gen st (contSplit1 sp A) =
      .ok { st with line := sp ++ serMark ++ (' ' :: A), linenum := st.linenum + 1 } := by
    unfold feedLine
    rw [hline]
    have h0 : feedBody cfg e gen { st with line := contSplit1 sp A, linenum := st.linenum + 1 } =
        .ok { st with line := sp ++ serMark ++ (' ' :: A), linenum := st.linenum + 1 } := by
      unfold feedBody
      rw [show contLineOut ({ st with line := contSplit1 sp A, linenum := st.linenum + 1 } : PState).line = true
            from contLineOut_split hsp hAnl]
      rw [if_pos rfl]
      rw [show chopCont ({ st with line := contSplit1 sp A, linenum := st.linenum + 1 } : PState).line
            = sp ++ serMark ++ (' ' :: A) from chopCont_split hAlast]
    exact h0
  have hnl2 : '\n' ∉ A ++ (' ' :: B) := by
    intro hm
    rcases List.mem_append.mp hm with h1 | h2
    · exact hAnl h1
    · rcases List.mem_cons.mp h2 with h3 | h4
      · exact absurd h3 (by decide)
      · exact hBnl h4
  have hlast2 : ∃ Y c, A ++ (' ' :: B) = Y ++ [c] ∧ isWS c = false := by
    refine ⟨A ++ (' ' :: Yb), cb, ?_, hcb⟩
    rw [hBe2]
    simp
  have hf2 : feedLine cfg e gen { st with line := sp ++ serMark ++ (' ' :: A), linenum := st.linenum + 1 }
        (contSplitN sp B) =
      .ok { st with line := sp ++ serMark ++ (' ' :: (A ++ (' ' :: B))), linenum := st.linenum + 2 } := by
    unfold feedLine
    rw [if_pos (show ({ st with line := sp ++ serMark ++ (' ' :: A), linenum := st.linenum + 1 } : PState).line ≠ []
          from by
            intro hcon
            have hlen := congrArg List.length hcon
            simp [serMark] at hlen)]
    rw [show contSplitN sp B = sp ++ contMark ++ (' ' :: (B ++ [' ', '&', '\n'])) from by simp [contSplitN]]
    rw [if_pos (contLineIn_split hsp)]
    rw [contLineSub_split hsp (show B ++ [' ', '&', '\n'] = xb :: (xbs ++ [' ', '&', '\n']) from by rw [hBe]; simp) hxb]
    have h0 : feedBody cfg e gen
        { st with line := (sp ++ serMark ++ (' ' :: A)) ++ (' ' :: (B ++ [' ', '&', '\n'])),
                  linenum := st.linenum + 2 } =
        .ok { st with line := sp ++ serMark ++ (' ' :: (A ++ (' ' :: B))), linenum := st.linenum + 2 } := by
      unfold feedBody
      rw [show ({ st with line := (sp ++ serMark ++ (' ' :: A)) ++ (' ' :: (B ++ [' ', '&', '\n'])),
                          linenum := st.linenum + 2 } : PState).line
            = sp ++ serMark ++ (' ' :: (A ++ (' ' :: B))) ++ [' ', '&', '\n'] from by simp]
      rw [show contLineOut (sp ++ serMark ++ (' ' :: (A ++ (' ' :: B))) ++ [' ', '&', '\n']) = true
            from contLineOut_split hsp hnl2]
      rw [if_pos rfl]
      rw [chopCont_split hlast2]
    exact h0
  have hf3 : feedLine cfg e gen
        { st with line := sp ++ serMark ++ (' ' :: (A ++ (' ' :: B))), linenum := st.linenum + 2 }
        (contSplitLast sp C) =
      feedBody cfg e gen { st with line := contOneLine sp A B C, linenum := st.linenum + 3 } := by
    unfold feedLine
    rw [if_pos (show ({ st with line := sp ++ serMark ++ (' ' :: (A ++ (' ' :: B))), linenum := st.linenum + 2 } : PState).line ≠ []
          from by
            intro hcon
            have hlen := congrArg List.length hcon
            simp [serMark] at hlen)]
    rw [show contSplitLast sp C = sp ++ contMark ++ (' ' :: (C ++ ['\n'])) from by simp [contSplitLast]]
    rw [if_pos (contLineIn_split hsp)]
    rw [contLineSub_split hsp (show C ++ ['\n'] = xc :: (xcs ++ ['\n']) from by rw [hCe]; simp) hxc]
    have hLeq : (sp ++ serMark ++ (' ' :: (A ++ (' ' :: B)))) ++ (' ' :: (C ++ ['\n']))
        = contOneLine sp A B C := by
      simp [contOneLine]
    exact congrArg (fun L => feedBody cfg e gen { st with line := L, linenum := st.linenum + 3 }) hLeq
  have hf4 : feedLine cfg e gen { st with linenum := st.linenum + 2 } (contOneLine sp A B C) =
      feedBody cfg e gen { st with line := contOneLine sp A B C, linenum := st.linenum + 3 } := by
    unfold feedLine
    rw [show ({ st with linenum := st.linenum + 2 } : PState).line = ([] : Str) from hline]
    rfl
  have e1 : feedAll cfg e gen st (contSplit1 sp A :: contSplitN sp B :: contSplitLast sp C :: rest)
      = feedAll cfg e gen { st with line := sp ++ serMark ++ (' ' :: A), linenum := st.linenum + 1 }
          (contSplitN sp B :: contSplitLast sp C :: rest) := by
    unfold feedAll
    rw [hf1]
    rfl
  have e2 : feedAll cfg e gen { st with line := sp ++ serMark ++ (' ' :: A), linenum := st.linenum + 1 }
          (contSplitN sp B :: contSplitLast sp C :: rest)
      = feedAll cfg e gen
          { st with line := sp ++ serMark ++ (' ' :: (A ++ (' ' :: B))), linenum := st.linenum + 2 }
          (contSplitLast sp C :: rest) := by
    unfold feedAll
    rw [hf2]
    rfl
  have e3 : feedAll cfg e gen
          { st with line := sp ++ serMark ++ (' ' :: (A ++ (' ' :: B))), linenum := st.linenum + 2 }
          (contSplitLast sp C :: rest)
      = match feedBody cfg e gen { st with line := contOneLine sp A B C, linenum := st.linenum + 3 } with
        | .error er => .error er
        | .ok st' => feedAll cfg e gen st' rest := by
    conv_lhs => unfold feedAll
    rw [hf3]
  have e4 : feedAll cfg e gen { st with linenum := st.linenum + 2 } (contOneLine sp A B C :: rest)
      = match feedBody cfg e gen { st with line := contOneLine sp A B C, linenum := st.linenum + 3 } with
        | .error er => .error er
        | .ok st' => feedAll cfg e gen st' rest := by
    conv_lhs => unfold feedAll
    rw [hf4]
  rw [e1, e2, e3, e4]

/-- **C3** witness: a concrete three-way split of a directive is
processed exactly like its one-line form. -/
theorem c3_continuation_equiv_witness :
    feedAll cfg0 idEnum true initState
        (contSplit1 [] ( "data".toList) :: contSplitN [] ( "k=v".toList)
          :: contSplitLast [] ( "j=w".toList) :: [])
      = feedAll cfg0 idEnum true { initState with linenum := initState.linenum + 2 }
          (contOneLine [] ( "data".toList) ( "k=v".toList) ( "j=w".toList) :: []) :=
  c3_continuation_equiv cfg0 idEnum true initState [] ( "data".toList) ( "k=v".toList)
    ( "j=w".toList) [] (by intro c hc; cases hc)
    ⟨by decide, ⟨'d', ( "ata".toList), by decide, by decide⟩,
     ⟨( "dat".toList), 'a', by decide, by decide⟩⟩
    ⟨by decide, ⟨'k', ( "=v".toList), by decide, by decide⟩,
     ⟨( "k=".toList), 'v', by decide, by decide⟩⟩
    ⟨by decide, ⟨'j', ( "=w".toList), by decide, by decide⟩,
     ⟨( "j=".toList), 'w', by decide, by decide⟩⟩
    rfl

/-- **C3** counterexample: an UPPERCASE continuation prefix `!$SER& ` is
accepted by the continuation recognizer (whose `re.match` call passes
`re.IGNORECASE` as its `flags` argument) but is not stripped by the
substitution (whose `re.sub` call passes `re.IGNORECASE` as its `count`
argument, so it runs case-sensitively): the prefix text merges into the
logical line, and the split directive produces different output than
the same directive written on one physical line (the first value parses
as `b!$SER&` instead of `b`), refuting the original universal claim. -/
theorem c3_uppercase_continuation_diverges :
    contLineIn ( "!$SER& c=d\n".toList) = true
    ∧ contLineSub ( "!$SER& c=d\n".toList) = ( "!$SER& c=d\n".toList)
    ∧ (stOf (feedAll cfg0 idEnum true initState
          [( "!$ser data a=b &\n".toList), ( "!$SER& c=d\n".toList)])).outBuf
      ≠ (stOf (feedAll cfg0 idEnum true { initState with linenum := initState.linenum + 1 }
          [( "!$ser data a=b c=d\n".toList)])).outBuf := by
  refine ⟨rfl, rfl, by decide⟩

/-! ## C4 (amended): without an anchor line the result is independent of
the set iteration order -/

/-- A line that is, up to indentation, a Fortran comment (it starts with
a bang after spaces).  Every pending continuation line has this shape. -/
def BangLine (l : Str) : Prop :=
  ∃ sp W, (∀ c ∈ sp, c = ' ') ∧ l = sp ++ ('!' :: W)

/-- The loop invariant on the current logical line: empty or a bang
line. -/
def Pend (st : PState) : Prop := st.line = [] ∨ BangLine st.line

theorem takeWhile_append_dropWhile_eq (p : Char → Bool) (l : Str) :
    l.takeWhile p ++ l.dropWhile p = l := by
  induction l with
  | nil => rfl
  | cons a l ih =>
    by_cases h : p a = true
    · simp [List.takeWhile_cons, List.dropWhile_cons, h, ih]
    · simp [List.takeWhile_cons, List.dropWhile_cons, h]

theorem matchImplicit_nil : matchImplicit ([] : Str) = false := rfl

theorem matchImplicit_bang {sp W : Str} (hsp : ∀ c ∈ sp, c = ' ') :
    matchImplicit (sp ++ ('!' :: W)) = false := by
  unfold matchImplicit
  rw [dropSp_bang hsp]
  rw [show stripCI kwImplicit ('!' :: W) = none from stripCI_head_ne (by decide)]

theorem bangLine_append {l x : Str} (hb : BangLine l) : BangLine (l ++ x) := by
  obtain ⟨sp, W, hsp, hl⟩ := hb
  exact ⟨sp, W ++ x, hsp, by rw [hl]; simp⟩

theorem getLast?_some_split {l : Str} {a : Char} (h : l.getLast? = some a) :
    l = l.dropLast ++ [a] := by
  cases hl : l.reverse with
  | nil =>
    rw [List.reverse_eq_nil_iff] at hl
    subst hl
    simp at h
  | cons x xs =>
    have h2 : l = xs.reverse ++ [x] := by
      have h3 := congrArg List.reverse hl
      simpa using h3
    rw [h2] at h ⊢
    rw [List.getLast?_concat] at h
    cases h
    simp [List.dropLast_concat]

/-- A proper prefix longer than the indentation of a bang line is again
a bang line over the same indentation. -/
theorem prefix_bang {sp : Str} :
    ∀ {T R : Str}, R <+: sp ++ ('!' :: T) → sp.length < R.length →
      ∃ T2, R = sp ++ ('!' :: T2) := by
  induction sp with
  | nil =>
    intro T R h hlen
    cases R with
    | nil => simp at hlen
    | cons r rs =>
      obtain ⟨tail, htail⟩ := h
      simp only [List.nil_append, List.cons_append, List.cons.injEq] at htail
      refine ⟨rs, ?_⟩
      simp [htail.1]
  | cons a as ih =>
    intro T R h hlen
    cases R with
    | nil => simp at hlen
    | cons r rs =>
      obtain ⟨tail, htail⟩ := h
      simp only [List.cons_append, List.cons.injEq] at htail
      obtain ⟨T2, hT2⟩ := ih ⟨tail, htail.2⟩ (by simp only [List.length_cons] at hlen; omega)
      refine ⟨T2, ?_⟩
      simp [htail.1, hT2]

/-- Dropping a trailing run of `p`-characters from the reverse keeps the
leading bang. -/
theorem revStrip_bang (p : Char → Bool) (hbang : p '!' = false) (sp W : Str) :
    ∃ W2, ((sp ++ ('!' :: W)).reverse.dropWhile p).reverse = sp ++ ('!' :: W2) := by
  rw [show (sp ++ ('!' :: W)).reverse = W.reverse ++ ('!' :: sp.reverse) from by simp]
  cases hdw : W.reverse.dropWhile p with
  | nil =>
    rw [dropWhile_append_of_all (List.dropWhile_eq_nil_iff.mp hdw)]
    rw [dropWhile_cons_of_neg hbang]
    exact ⟨[], by simp⟩
  | cons c cs =>
    rw [dropWhile_append_nonempty hdw]
    exact ⟨cs.reverse ++ [c], by simp⟩

/-- `re.sub(' +& *$', '', b)` keeps the leading bang. -/
theorem chopBody_bang (sp T : Str) : ∃ T2, chopBody (sp ++ ('!' :: T)) = sp ++ ('!' :: T2) := by
  unfold chopBody
  obtain ⟨T1, h1⟩ := revStrip_bang (fun c => c == ' ') (by decide) sp T
  rw [show rstripSp (sp ++ ('!' :: T)) = sp ++ ('!' :: T1) from h1]
  split
  · rename_i restRev hpat
    rw [show (sp ++ ('!' :: T1)).reverse = T1.reverse ++ ('!' :: sp.reverse) from by simp] at hpat
    cases hT1r : T1.reverse with
    | nil =>
      rw [hT1r] at hpat
      simp at hpat
    | cons t1 trest =>
      rw [hT1r] at hpat
      simp only [List.cons_append, List.cons.injEq] at hpat
      obtain ⟨ht1, hpat2⟩ := hpat
      cases trest with
      | nil => simp at hpat2
      | cons t2 trest2 =>
        simp only [List.cons_append, List.cons.injEq] at hpat2
        obtain ⟨ht2, hpat3⟩ := hpat2
        have hR : restRev.reverse = sp ++ ('!' :: trest2.reverse) := by
          rw [← hpat3]
          simp
        rw [show (' ' :: restRev).reverse = restRev.reverse ++ [' '] from by simp, hR]
        rw [show (sp ++ ('!' :: trest2.reverse)) ++ [' '] = sp ++ ('!' :: (trest2.reverse ++ [' '])) from by simp]
        obtain ⟨T3, h3⟩ := revStrip_bang (fun c => c == ' ') (by decide) sp (trest2.reverse ++ [' '])
        exact ⟨T3, h3⟩
  · exact ⟨T, rfl⟩

/-- Chopping a continued line keeps the leading bang. -/
theorem chopCont_bang {l : Str} (hb : BangLine l) : BangLine (chopCont l) := by
  obtain ⟨sp, W, hsp, hl⟩ := hb
  subst hl
  unfold chopCont
  by_cases hend : (sp ++ ('!' :: W)).getLast? = some '\n'
  · rw [if_pos hend]
    have hsplit := getLast?_some_split hend
    have hWne : W ≠ [] := by
      intro he
      subst he
      simp [List.getLast?_concat] at hend
    have hlen : sp.length < (sp ++ ('!' :: W)).dropLast.length := by
      have h3 := congrArg List.length hsplit
      have hW1 : 0 < W.length := List.length_pos.mpr hWne
      simp at h3 ⊢
      omega
    obtain ⟨T0, hT0⟩ := prefix_bang ⟨['\n'], hsplit.symm⟩ hlen
    rw [hT0]
    obtain ⟨T1, hT1⟩ := chopBody_bang sp T0
    rw [hT1]
    rw [show (sp ++ ('!' :: T1)) ++ ['\n'] = sp ++ ('!' :: (T1 ++ ['\n'])) from by simp]
    obtain ⟨T3, h3⟩ := revStrip_bang isWS (by decide) sp (T1 ++ ['\n'])
    exact ⟨sp, T3, hsp, show pyRstrip (sp ++ ('!' :: (T1 ++ ['\n']))) = sp ++ ('!' :: T3) from h3⟩
  · rw [if_neg hend]
    obtain ⟨T1, hT1⟩ := chopBody_bang sp W
    rw [hT1]
    obtain ⟨T3, h3⟩ := revStrip_bang isWS (by decide) sp T1
    exact ⟨sp, T3, hsp, show pyRstrip (sp ++ ('!' :: T1)) = sp ++ ('!' :: T3) from h3⟩

/-- A line announcing a continuation is a bang line. -/
theorem bangLine_of_contOut {s : Str} (h : contLineOut s = true) : BangLine s := by
  unfold contLineOut at h
  by_cases hn : '\n' ∈ chompNl s
  · rw [if_pos hn] at h
    exact absurd h (by simp)
  · rw [if_neg hn] at h
    cases hs : stripCI serMark ((chompNl s).dropWhile (fun c => c == ' ')) with
    | none =>
      rw [hs] at h
      exact absurd (show false = true from h) (by decide)
    | some r =>
      obtain ⟨q, hq, hql⟩ := stripCI_consumed hs
      cases q with
      | nil => simp [serMark] at hql
      | cons q0 q2 =>
        have hq0 : q0 = '!' := by
          simp only [List.map_cons, serMark, List.cons.injEq] at hql
          exact lowerChar_bang hql.1
        subst hq0
        unfold chompNl at hq
        by_cases hendnl : s.getLast? = some '\n'
        · rw [if_pos hendnl] at hq
          have hsplit := getLast?_some_split hendnl
          have hdw : s.dropWhile (fun c => c == ' ') = '!' :: ((q2 ++ r) ++ ['\n']) := by
            conv_lhs => rw [hsplit]
            exact dropWhile_append_nonempty hq
          refine ⟨s.takeWhile (fun c => c == ' '), (q2 ++ r) ++ ['\n'], ?_, ?_⟩
          · intro c hc
            have h4 := List.mem_takeWhile_imp hc
            simpa using h4
          · conv_lhs => rw [← takeWhile_append_dropWhile_eq (fun c => c == ' ') s]
            rw [hdw]
        · rw [if_neg hendnl] at hq
          refine ⟨s.takeWhile (fun c => c == ' '), q2 ++ r, ?_, ?_⟩
          · intro c hc
            have h4 := List.mem_takeWhile_imp hc
            simpa using h4
          · conv_lhs => rw [← takeWhile_append_dropWhile_eq (fun c => c == ' ') s]
            rw [hq]
            simp

theorem reImplicit_nomatch {cfg : Cfg} {e : EnumFn} {st : PState}
    (h : matchImplicit st.line = false) : reImplicit cfg e st = st := by
  unfold reImplicit
  simp [h]

/-- With no anchor line in sight, one `lexer` step does not depend on
the set iteration order. -/
theorem lexer_enum_eq {cfg : Cfg} {e1 e2 : EnumFn} {final : Bool} {st : PState}
    (h : matchImplicit st.line = false) :
    lexer cfg e1 final st = lexer cfg e2 final st := by
  cases hm : reModule cfg st with
  | error er =>
    rw [show lexer cfg e1 final st = .error er from by unfold lexer; rw [hm]]
    rw [show lexer cfg e2 final st = .error er from by unfold lexer; rw [hm]]
  | ok st1 =>
    have h1 : matchImplicit st1.line = false := by
      rw [(reModule_fields hm).1]
      exact h
    rw [lexer_step1 hm, lexer_step1 hm]
    rw [show reImplicit cfg e1 st1 = st1 from reImplicit_nomatch h1]
    rw [show reImplicit cfg e2 st1 = st1 from reImplicit_nomatch h1]

theorem feedBody_enum {cfg : Cfg} {e1 e2 : EnumFn} {gen : Bool} {st1 : PState}
    (h : matchImplicit st1.line = false) :
    feedBody cfg e1 gen st1 = feedBody cfg e2 gen st1 := by
  unfold feedBody
  by_cases hco : contLineOut st1.line = true
  · rw [if_pos hco, if_pos hco]
  · rw [if_neg hco, if_neg hco]
    rw [show lexer cfg e1 false st1 = lexer cfg e2 false st1 from lexer_enum_eq h]

theorem feedBody_pend {cfg : Cfg} {e : EnumFn} {gen : Bool} {st1 st' : PState}
    (h : feedBody cfg e gen st1 = .ok st') : Pend st' := by
  unfold feedBody at h
  by_cases hco : contLineOut st1.line = true
  · rw [if_pos hco] at h
    have h2 : Except.ok { st1 with line := chopCont st1.line } = Except.ok st' := h
    cases h2
    right
    exact chopCont_bang (bangLine_of_contOut hco)
  · rw [if_neg hco] at h
    cases hl : lexer cfg e false st1 with
    | error er =>
      rw [hl] at h
      exact Except.noConfusion (show (Except.error er : Except PErr PState) = .ok st' from h)
    | ok st2 =>
      rw [hl] at h
      cases gen with
      | true =>
        cases (show Except.ok { st2 with outBuf := st2.outBuf ++ st2.line, line := [] } = Except.ok st' from h)
        left
        rfl
      | false =>
        cases (show Except.ok ({ st2 with line := [] } : PState) = Except.ok st' from h)
        left
        rfl

theorem feedLine_pend {cfg : Cfg} {e : EnumFn} {gen : Bool} {st st' : PState} {raw : Str}
    (h : feedLine cfg e gen st raw = .ok st') : Pend st' := by
  unfold feedLine at h
  by_cases hne : st.line ≠ []
  · rw [if_pos hne] at h
    by_cases hci : contLineIn raw = true
    · rw [if_pos hci] at h
      exact feedBody_pend
        (show feedBody cfg e gen { st with line := st.line ++ contLineSub raw, linenum := st.linenum + 1 } = .ok st' from h)
    · rw [if_neg hci] at h
      exact Except.noConfusion
        (show Except.error (exitErr cfg st [] ( "Incorrect line continuation encountered".toList)) = Except.ok st' from h)
  · rw [if_neg hne] at h
    exact feedBody_pend
      (show feedBody cfg e gen { st with line := st.line ++ raw, linenum := st.linenum + 1 } = .ok st' from h)

theorem feedLine_enum {cfg : Cfg} {e1 e2 : EnumFn} {gen : Bool} {st : PState} {raw : Str}
    (hp : Pend st) (hraw : matchImplicit raw = false) :
    feedLine cfg e1 gen st raw = feedLine cfg e2 gen st raw := by
  unfold feedLine
  by_cases hne : st.line ≠ []
  · have hbl : BangLine st.line := hp.resolve_left hne
    rw [if_pos hne]
    by_cases hci : contLineIn raw = true
    · rw [if_pos hci]
      have hm : matchImplicit ({ st with line := st.line ++ contLineSub raw, linenum := st.linenum + 1 } : PState).line = false := by
        show matchImplicit (st.line ++ contLineSub raw) = false
        obtain ⟨sp, W, hsp, hl⟩ := hbl
        rw [hl]
        rw [show (sp ++ ('!' :: W)) ++ contLineSub raw = sp ++ ('!' :: (W ++ contLineSub raw)) from by simp]
        exact matchImplicit_bang hsp
      exact feedBody_enum hm
    · rw [if_neg hci]
  · rw [if_neg hne]
    have hline : st.line = [] := not_not.mp hne
    have hm : matchImplicit ({ st with line := st.line ++ raw, linenum := st.linenum + 1 } : PState).line = false := by
      show matchImplicit (st.line ++ raw) = false
      rw [hline]
      simpa using hraw
    exact feedBody_enum hm

theorem feedAll_pend {cfg : Cfg} {e : EnumFn} {gen : Bool} :
    ∀ {lines : List Str} {st st' : PState}, Pend st →
      feedAll cfg e gen st lines = .ok st' → Pend st' := by
  intro lines
  induction lines with
  | nil =>
    intro st st' hp h
    cases (show Except.ok st = Except.ok st' from h)
    exact hp
  | cons l ls ih =>
    intro st st' hp h
    unfold feedAll at h
    cases hf : feedLine cfg e gen st l with
    | error er =>
      rw [hf] at h
      exact Except.noConfusion (show (Except.error er : Except PErr PState) = .ok st' from h)
    | ok stm =>
      rw [hf] at h
      exact ih (feedLine_pend hf) (show feedAll cfg e gen stm ls = .ok st' from h)

theorem feedAll_enum {cfg : Cfg} {e1 e2 : EnumFn} {gen : Bool} :
    ∀ {lines : List Str} {st : PState}, Pend st → (∀ l ∈ lines, matchImplicit l = false) →
      feedAll cfg e1 gen st lines = feedAll cfg e2 gen st lines := by
  intro lines
  induction lines with
  | nil => intro st _ _; rfl
  | cons l ls ih =>
    intro st hp hl
    unfold feedAll
    rw [show feedLine cfg e1 gen st l = feedLine cfg e2 gen st l from feedLine_enum hp (hl l (by simp))]
    cases hf : feedLine cfg e2 gen st l with
    | error er => rfl
    | ok stm =>
      show feedAll cfg e1 gen stm ls = feedAll cfg e2 gen stm ls
      exact ih (feedLine_pend hf) (fun x hx => hl x (List.mem_cons_of_mem _ hx))

theorem passBody_enum {cfg : Cfg} {e1 e2 : EnumFn} {gen : Bool} {lines : List Str} {st0 : PState}
    (h : ∀ l ∈ lines, matchImplicit l = false) :
    passBody cfg e1 gen lines st0 = passBody cfg e2 gen lines st0 := by
  unfold passBody
  rw [show feedAll cfg e1 gen (parseResetSt st0) lines = feedAll cfg e2 gen (parseResetSt st0) lines
        from feedAll_enum (Or.inl rfl) h]
  cases hf : feedAll cfg e2 gen (parseResetSt st0) lines with
  | error er => rfl
  | ok st1 =>
    show lexer cfg e1 true st1 = lexer cfg e2 true st1
    have hp1 : Pend st1 := feedAll_pend (Or.inl rfl) hf
    rcases hp1 with h0 | hbl
    · exact lexer_enum_eq (by rw [h0]; exact matchImplicit_nil)
    · obtain ⟨sp, W, hsp, hl⟩ := hbl
      exact lexer_enum_eq (by rw [hl]; exact matchImplicit_bang hsp)

theorem parsePass_enum {cfg : Cfg} {e1 e2 : EnumFn} {gen : Bool} {lines : List Str} {st0 : PState}
    (h : ∀ l ∈ lines, matchImplicit l = false) :
    parsePass cfg e1 gen lines st0 = parsePass cfg e2 gen lines st0 := by
  unfold parsePass
  rw [show passBody cfg e1 gen lines st0 = passBody cfg e2 gen lines st0 from passBody_enum h]

/-- **C4** (amended): the two-pass transform is a pure function of the
input lines, the configuration and the iteration order of the registry
set; in particular, when no line of the file is an import-anchor line
(so no import block is ever synthesized), the result does not depend on
the set iteration order at all. -/
theorem c4_no_anchor_deterministic (cfg : Cfg) (e1 e2 : EnumFn) (lines : List Str)
    (h : ∀ l ∈ lines, matchImplicit l = false) :
    preprocess cfg e1 lines initState = preprocess cfg e2 lines initState := by
  unfold preprocess
  rw [show parsePass cfg e1 false lines initState = parsePass cfg e2 false lines initState
        from parsePass_enum h]
  cases hp : parsePass cfg e2 false lines initState with
  | error er => rfl
  | ok st1 =>
    show parsePass cfg e1 true lines st1 = parsePass cfg e2 true lines st1
    exact parsePass_enum h

/-- **C4** (amended) witness: on an anchor-free file two opposite set
iteration orders give the same result. -/
theorem c4_no_anchor_deterministic_witness :
    (∀ l ∈ [( "x\n".toList)], matchImplicit l = false)
    ∧ preprocess cfg0 idEnum [( "x\n".toList)] initState
        = preprocess cfg0 revEnum [( "x\n".toList)] initState :=
  ⟨by decide, c4_no_anchor_deterministic cfg0 idEnum revEnum [( "x\n".toList)] (by decide)⟩

end PPSer
